import Mathlib

/-!
Shallow embedding of the alert registry and polling evaluator of
`src/app.js` (LINE stock bot).  JavaScript numbers are modelled as
rationals (all computations performed by the evaluator are field
operations and comparisons), JS `Map`s as insertion-ordered association
lists, and the stock snapshot fields `z` (price), `y` (previous close)
and `v` (volume) as `Option Rat` where `none` stands for a field on
which `parseFloat` yields `NaN`.
-/

namespace StockBot

/-- Configuration constant `ALERT_POLL_INTERVAL_MS = 60000` (app.js line 36). -/
def ALERT_POLL_INTERVAL_MS : Nat := 60000

/-- Configuration constant `VOLUME_HISTORY_LIMIT = 20` (app.js line 37). -/
def VOLUME_HISTORY_LIMIT : Nat := 20

/-- Configuration constant `VOLUME_MIN_SAMPLES = 3` (app.js line 38). -/
def VOLUME_MIN_SAMPLES : Nat := 3

/-- The two directions of a price alert, the strings `'ABOVE'` / `'BELOW'`. -/
inductive Direction where
  | ABOVE
  | BELOW
deriving DecidableEq, Repr

/-- A price alert record `{ stockCode, direction, targetPrice }` (app.js line 343). -/
structure PriceAlert where
  stockCode : String
  direction : Direction
  targetPrice : Rat
deriving DecidableEq, Repr

/-- A change alert record `{ stockCode, changePercent }` (app.js line 386). -/
structure ChangeAlert where
  stockCode : String
  changePercent : Rat
deriving DecidableEq, Repr

/-- A volume alert record `{ stockCode, multiplier }` (app.js line 432). -/
structure VolumeAlert where
  stockCode : String
  multiplier : Rat
deriving DecidableEq, Repr

/-- A fetched stock snapshot, restricted to the fields the evaluator reads:
`z` current price, `y` previous close, `v` volume.  `none` models a field
whose `parseFloat` is `NaN` (absent or non-numeric, e.g. `"-"`). -/
structure StockData where
  z : Option Rat
  y : Option Rat
  v : Option Rat
deriving DecidableEq, Repr

/-- One outbound `client.pushMessage` dispatched by `checkAlerts`, tagged by
the user it was sent to, the alert that fired, and the datum quoted in the
message text. -/
inductive Notification where
  | price (userId : String) (alert : PriceAlert) (currentPrice : Rat)
  | change (userId : String) (alert : ChangeAlert) (percentageChange : Rat)
  | volume (userId : String) (alert : VolumeAlert) (currentVolume : Rat)
deriving DecidableEq, Repr

/-- The stock code the notification's alert refers to. -/
def Notification.stockCodeOf : Notification → String
  | .price _ a _ => a.stockCode
  | .change _ a _ => a.stockCode
  | .volume _ a _ => a.stockCode

/-! ### JS `Map` as an insertion-ordered association list -/

/-- `map.get(k)` : the value of the first (and, for maps built by the
program's operations, only) entry with key `k`. -/
def mapGet (m : List (String × List α)) (k : String) : Option (List α) :=
  (m.find? (fun p => decide (p.1 = k))).map Prod.snd

/-- The user's bucket: `map.get(k)` with the `|| []` default used throughout
`checkAlerts` and the list/clear handlers. -/
def bucketOf (m : List (String × List α)) (k : String) : List α :=
  (mapGet m k).getD []

/-- `map.has(k)`. -/
def keyPresent (m : List (String × List α)) (k : String) : Bool :=
  m.any (fun p => decide (p.1 = k))

/-- `map.set(k, v)` : replaces the entry in place when the key is present,
otherwise appends a fresh entry at the end (JS `Map` insertion order). -/
def mapSet (m : List (String × List α)) (k : String) (v : List α) : List (String × List α) :=
  if keyPresent m k then m.map (fun p => if p.1 = k then (k, v) else p)
  else m ++ [(k, v)]

/-- `map.delete(k)`. -/
def mapDelete (m : List (String × List α)) (k : String) : List (String × List α) :=
  m.filter (fun p => decide (p.1 ≠ k))

/-! ### Snapshot field parsing (app.js lines 181-185) -/

/-- The JS idiom `parseFloat(x) || fallback`: the fallback is taken when the
parse is `NaN` (modelled `none`) or when it is `0` (since `0` is falsy). -/
def jsParseOr (x : Option Rat) (fallback : Rat) : Rat :=
  match x with
  | none => fallback
  | some q => if q = 0 then fallback else q

/-- `const currentPrice = parseFloat(stockData.z) || 0` (line 181). -/
def currentPriceOf (sd : StockData) : Rat := jsParseOr sd.z 0

/-- `const previousClose = parseFloat(stockData.y) || currentPrice` (line 182). -/
def previousCloseOf (sd : StockData) : Rat := jsParseOr sd.y (currentPriceOf sd)

/-- `const priceChange = currentPrice - previousClose` (line 183). -/
def priceChangeOf (sd : StockData) : Rat := currentPriceOf sd - previousCloseOf sd

/-- `const percentageChange = previousClose !== 0 ? (priceChange / previousClose * 100) : 0`
(line 184). -/
def percentageChangeOf (sd : StockData) : Rat :=
  if previousCloseOf sd ≠ 0 then priceChangeOf sd / previousCloseOf sd * 100 else 0

/-- `const currentVolume = parseFloat(stockData.v) || 0` (line 185). -/
def currentVolumeOf (sd : StockData) : Rat := jsParseOr sd.v 0

/-! ### Trigger conditions (app.js lines 200-201, 234, 267-271) -/

/-- `(alert.direction === 'ABOVE' && currentPrice >= alert.targetPrice) ||
(alert.direction === 'BELOW' && currentPrice <= alert.targetPrice)` (lines 200-201). -/
def priceTrigger (currentPrice : Rat) (a : PriceAlert) : Bool :=
  (decide (a.direction = Direction.ABOVE) && decide (a.targetPrice ≤ currentPrice)) ||
  (decide (a.direction = Direction.BELOW) && decide (currentPrice ≤ a.targetPrice))

/-- `Math.abs(percentageChange) >= alert.changePercent` (line 234). -/
def changeTrigger (percentageChange : Rat) (a : ChangeAlert) : Bool :=
  decide (a.changePercent ≤ |percentageChange|)

/-- `history.reduce((sum, value) => sum + value, 0) / history.length`, or `0`
for an empty history (line 254). -/
def averageOf (history : List Rat) : Rat :=
  if history.length > 0 then history.sum / (history.length : Rat) else 0

/-- Lines 267-271: trigger starts `false` and is set only when
`history.length >= VOLUME_MIN_SAMPLES && averageVolume > 0`, in which case it
is `currentVolume >= averageVolume * alert.multiplier`. -/
def volumeTrigger (history : List Rat) (currentVolume : Rat) (a : VolumeAlert) : Bool :=
  decide (VOLUME_MIN_SAMPLES ≤ history.length) && decide (0 < averageOf history) &&
    decide (averageOf history * a.multiplier ≤ currentVolume)

/-- Whether a price alert fires while `checkAlerts` is processing `code`:
it must be an alert on `code` (line 194's skip) and its trigger must hold. -/
def firesPrice (code : String) (currentPrice : Rat) (a : PriceAlert) : Bool :=
  decide (a.stockCode = code) && priceTrigger currentPrice a

/-- Whether a change alert fires while `checkAlerts` is processing `code`. -/
def firesChange (code : String) (percentageChange : Rat) (a : ChangeAlert) : Bool :=
  decide (a.stockCode = code) && changeTrigger percentageChange a

/-- Whether a volume alert fires while `checkAlerts` is processing `code`,
against the history as read before the current sample is appended. -/
def firesVolume (code : String) (history : List Rat) (currentVolume : Rat)
    (a : VolumeAlert) : Bool :=
  decide (a.stockCode = code) && volumeTrigger history currentVolume a

/-! ### One pass of `checkAlerts` over a single stock code -/

/-- The per-user loop of `checkAlerts` (lines 189-220 and analogues): each
user's bucket is rebuilt keeping exactly the alerts that did not fire, and a
user whose rebuilt bucket is empty is deleted from the map. -/
def sweep (fires : α → Bool) : List (String × List α) → List (String × List α)
  | [] => []
  | p :: m =>
    if (p.2.filter (fun a => !fires a)).isEmpty then sweep fires m
    else (p.1, p.2.filter (fun a => !fires a)) :: sweep fires m

/-- The notifications dispatched by one per-user loop: one `pushMessage` per
firing alert, in map order then bucket order. -/
def notifsOf (fires : α → Bool) (mk : String → α → Notification) :
    List (String × List α) → List Notification
  | [] => []
  | p :: m => (p.2.filter fires).map (mk p.1) ++ notifsOf fires mk m

/-- Lines 291-296: `history = [...history, currentVolume]` then, when the
length exceeds `VOLUME_HISTORY_LIMIT`, `history.slice(history.length - VOLUME_HISTORY_LIMIT)`. -/
def appendHistory (h : List Rat) (v : Rat) : List Rat :=
  if (h ++ [v]).length > VOLUME_HISTORY_LIMIT then
    (h ++ [v]).drop ((h ++ [v]).length - VOLUME_HISTORY_LIMIT)
  else h ++ [v]

/-- The mutable state of the bot: the three per-kind alert maps and the
volume history map (app.js lines 40-43). -/
structure BotState where
  userPriceAlerts : List (String × List PriceAlert)
  userChangeAlerts : List (String × List ChangeAlert)
  userVolumeAlerts : List (String × List VolumeAlert)
  volumeHistory : List (String × List Rat)
deriving DecidableEq, Repr

/-- The body of `checkAlerts`' per-stock-code loop for a successfully fetched
snapshot (lines 181-296): derive the snapshot values, sweep the price alerts,
then the change alerts, then the volume alerts (reading the history before
appending), and finally append the current volume to the history. -/
def processStockWith (sd : StockData) (code : String) (s : BotState) :
    BotState × List Notification :=
  let cp := currentPriceOf sd
  let pct := percentageChangeOf sd
  let hist := bucketOf s.volumeHistory code
  let cv := currentVolumeOf sd
  ({ userPriceAlerts := sweep (firesPrice code cp) s.userPriceAlerts
     userChangeAlerts := sweep (firesChange code pct) s.userChangeAlerts
     userVolumeAlerts := sweep (firesVolume code hist cv) s.userVolumeAlerts
     volumeHistory := mapSet s.volumeHistory code (appendHistory hist cv) },
   notifsOf (firesPrice code cp) (fun u a => .price u a cp) s.userPriceAlerts
     ++ notifsOf (firesChange code pct) (fun u a => .change u a pct) s.userChangeAlerts
     ++ notifsOf (firesVolume code hist cv) (fun u a => .volume u a cv) s.userVolumeAlerts)

/-- One iteration of the per-stock-code loop.  A fetch that throws or returns
`null` (both modelled by the oracle answering `none`) hits the `continue`
(lines 173-179): the state is untouched and nothing is dispatched. -/
def processStock (fetch : String → Option StockData) (s : BotState) (code : String) :
    BotState × List Notification :=
  match fetch code with
  | none => (s, [])
  | some sd => processStockWith sd code s

/-- `x ∈ acc ? acc : acc ++ [x]` — JS `Set.add` on an insertion-ordered set. -/
def insertDistinct (acc : List String) (x : String) : List String :=
  if x ∈ acc then acc else acc ++ [x]

/-- Lines 151-164: the distinct stock codes referenced by any alert, in
first-insertion order (price buckets, then volume, then change). -/
def collectCodes (s : BotState) : List String :=
  ((s.userPriceAlerts.flatMap (fun p => p.2.map PriceAlert.stockCode))
    ++ (s.userVolumeAlerts.flatMap (fun p => p.2.map VolumeAlert.stockCode))
    ++ (s.userChangeAlerts.flatMap (fun p => p.2.map ChangeAlert.stockCode))).foldl
    insertDistinct []

/-- Folding one stock code into the running (state, dispatched notifications). -/
def cycleStep (fetch : String → Option StockData)
    (acc : BotState × List Notification) (code : String) : BotState × List Notification :=
  let r := processStock fetch acc.1 code
  (r.1, acc.2 ++ r.2)

/-- The per-stock-code loop of `checkAlerts`, run over a given code list. -/
def runCycleFrom (fetch : String → Option StockData) (codes : List String)
    (start : BotState × List Notification) : BotState × List Notification :=
  codes.foldl (cycleStep fetch) start

/-- One full evaluation cycle, `checkAlerts` (app.js lines 149-298), as a
pure function of the fetch oracle and the pre-cycle state.  Returns the
post-cycle state and the list of dispatched notifications. -/
def checkAlerts (fetch : String → Option StockData) (s : BotState) :
    BotState × List Notification :=
  runCycleFrom fetch (collectCodes s) (s, [])

/-! ### Command-layer registry mutations (app.js lines 334-456) -/

/-- `alert.stockCode === stockCode && alert.direction === direction`
(line 340's `findIndex` predicate). -/
def priceKeyMatches (code : String) (dir : Direction) (a : PriceAlert) : Bool :=
  decide (a.stockCode = code) && decide (a.direction = dir)

/-- `userAlerts[existingIndex].targetPrice = targetPrice`: update the first
alert matching the (stockCode, direction) dedup key in place. -/
def setPriceTargetAtFirst (l : List PriceAlert) (code : String) (dir : Direction)
    (price : Rat) : List PriceAlert :=
  match l with
  | [] => []
  | a :: rest =>
    if priceKeyMatches code dir a then { a with targetPrice := price } :: rest
    else a :: setPriceTargetAtFirst rest code dir price

/-- The `ALERT code ABOVE|BELOW price` handler's registry mutation
(lines 339-343): fetch-or-create the user's bucket, then replace the first
alert with the same (stockCode, direction) or push a new one. -/
def priceBucketUpsert (bucket : List PriceAlert) (code : String) (dir : Direction)
    (price : Rat) : List PriceAlert :=
  if bucket.any (priceKeyMatches code dir) then setPriceTargetAtFirst bucket code dir price
  else bucket ++ [{ stockCode := code, direction := dir, targetPrice := price }]

/-- See `priceBucketUpsert`: the whole-map effect of the handler. -/
def upsertPriceAlert (m : List (String × List PriceAlert)) (userId code : String)
    (dir : Direction) (price : Rat) : List (String × List PriceAlert) :=
  mapSet m userId (priceBucketUpsert (bucketOf m userId) code dir price)

/-- `alerts[existingIndex].changePercent = changePercent` on the first alert
with the same stockCode (lines 383-386). -/
def setChangePercentAtFirst (l : List ChangeAlert) (code : String) (pct : Rat) :
    List ChangeAlert :=
  match l with
  | [] => []
  | a :: rest =>
    if a.stockCode = code then { a with changePercent := pct } :: rest
    else a :: setChangePercentAtFirst rest code pct

/-- The `ALERT code CHANGE pct` handler's registry mutation (lines 382-386). -/
def changeBucketUpsert (bucket : List ChangeAlert) (code : String) (pct : Rat) :
    List ChangeAlert :=
  if bucket.any (fun a => decide (a.stockCode = code)) then setChangePercentAtFirst bucket code pct
  else bucket ++ [{ stockCode := code, changePercent := pct }]

/-- See `changeBucketUpsert`: the whole-map effect of the handler. -/
def upsertChangeAlert (m : List (String × List ChangeAlert)) (userId code : String)
    (pct : Rat) : List (String × List ChangeAlert) :=
  mapSet m userId (changeBucketUpsert (bucketOf m userId) code pct)

/-- `alerts[existingIndex].multiplier = multiplier` on the first alert with
the same stockCode (lines 429-432). -/
def setMultiplierAtFirst (l : List VolumeAlert) (code : String) (mult : Rat) :
    List VolumeAlert :=
  match l with
  | [] => []
  | a :: rest =>
    if a.stockCode = code then { a with multiplier := mult } :: rest
    else a :: setMultiplierAtFirst rest code mult

/-- The `VOL code mult` handler's registry mutation (lines 418-432), with the
`multiplier <= 1` rejection (line 423) performed before the bucket is touched. -/
def volumeBucketUpsert (bucket : List VolumeAlert) (code : String) (mult : Rat) :
    List VolumeAlert :=
  if bucket.any (fun a => decide (a.stockCode = code)) then setMultiplierAtFirst bucket code mult
  else bucket ++ [{ stockCode := code, multiplier := mult }]

/-- See `volumeBucketUpsert`: the whole-map effect of the handler. -/
def upsertVolumeAlert (m : List (String × List VolumeAlert)) (userId code : String)
    (mult : Rat) : List (String × List VolumeAlert) :=
  if mult ≤ 1 then m
  else mapSet m userId (volumeBucketUpsert (bucketOf m userId) code mult)

/-- `ALERT CLEAR` (lines 411-416): deletes the user's price and change buckets. -/
def clearPriceAndChange (s : BotState) (userId : String) : BotState :=
  { s with userPriceAlerts := mapDelete s.userPriceAlerts userId
           userChangeAlerts := mapDelete s.userChangeAlerts userId }

/-- `VOL CLEAR` (lines 452-456): deletes the user's volume bucket. -/
def clearVolume (s : BotState) (userId : String) : BotState :=
  { s with userVolumeAlerts := mapDelete s.userVolumeAlerts userId }

/-! ### The scheduler (app.js lines 519-524) -/

/-- Start time in milliseconds of the k-th `checkAlerts` invocation under the
source's scheduling: one immediate call at startup, and a `setInterval` timer
whose callback runs `checkAlerts()` at each tick without awaiting the promise
of any earlier invocation, so the k-th invocation starts at `k` intervals
regardless of how long earlier invocations take. -/
def cycleStart (k : Nat) : Nat := k * ALERT_POLL_INTERVAL_MS

/-- Completion time of the k-th invocation given its duration. -/
def cycleEnd (duration : Nat → Nat) (k : Nat) : Nat := cycleStart k + duration k

/-- No two cycles overlap: each invocation completes before the next starts. -/
def noOverlap (duration : Nat → Nat) : Prop :=
  ∀ k, cycleEnd duration k ≤ cycleStart (k + 1)

end StockBot

/-! ### Basic lemmas about the map embedding -/

namespace StockBot

theorem bucketOf_nil (k : String) : bucketOf ([] : List (String × List α)) k = [] := rfl

theorem bucketOf_cons (p : String × List α) (m : List (String × List α)) (k : String) :
    bucketOf (p :: m) k = if p.1 = k then p.2 else bucketOf m k := by
  by_cases h : p.1 = k
  · simp [bucketOf, mapGet, List.find?_cons_of_pos, h]
  · simp only [bucketOf, mapGet, h, if_false]
    rw [List.find?_cons_of_neg]
    simp [h]

theorem keyPresent_nil (k : String) : keyPresent ([] : List (String × List α)) k = false := rfl

theorem keyPresent_cons (p : String × List α) (m : List (String × List α)) (k : String) :
    keyPresent (p :: m) k = (decide (p.1 = k) || keyPresent m k) := by
  simp [keyPresent]

theorem keyPresent_iff_mem_keys (m : List (String × List α)) (k : String) :
    keyPresent m k = true ↔ k ∈ m.map Prod.fst := by
  simp only [keyPresent, List.any_eq_true, decide_eq_true_eq, List.mem_map]

/-- A key that heads no entry has the empty bucket. -/
theorem bucketOf_eq_nil_of_not_key (m : List (String × List α)) (k : String)
    (h : ∀ p ∈ m, p.1 ≠ k) : bucketOf m k = [] := by
  induction m with
  | nil => rfl
  | cons p m ih =>
    rw [bucketOf_cons]
    have hp := h p (by simp)
    simp only [hp, if_false]
    exact ih (fun q hq => h q (by simp [hq]))

theorem bucketOf_append_single_self (m : List (String × List α)) (k : String) (v : List α) :
    bucketOf (m ++ [(k, v)]) k = if keyPresent m k then bucketOf m k else v := by
  induction m with
  | nil => simp [bucketOf_cons, keyPresent_nil]
  | cons p m ih =>
    rw [List.cons_append, bucketOf_cons, bucketOf_cons, keyPresent_cons]
    by_cases h : p.1 = k
    · simp [h]
    · simp only [h, if_false, decide_eq_true_eq, Bool.false_or]
      rw [ih]
      simp [h]

theorem bucketOf_append_single_ne (m : List (String × List α)) (k k' : String) (v : List α)
    (hne : k' ≠ k) : bucketOf (m ++ [(k, v)]) k' = bucketOf m k' := by
  have h' : ¬ ((k : String) = k') := fun hc => hne hc.symm
  induction m with
  | nil => simp [bucketOf_cons, bucketOf_nil, h']
  | cons p m ih =>
    rw [List.cons_append, bucketOf_cons, bucketOf_cons, ih]

theorem bucketOf_map_replace_self (m : List (String × List α)) (k : String) (v : List α)
    (h : keyPresent m k = true) :
    bucketOf (m.map (fun p => if p.1 = k then (k, v) else p)) k = v := by
  induction m with
  | nil => simp [keyPresent_nil] at h
  | cons p m ih =>
    rw [keyPresent_cons] at h
    by_cases hp : p.1 = k
    · simp [List.map_cons, hp, bucketOf_cons]
    · rw [List.map_cons]
      simp only [hp, if_false]
      rw [bucketOf_cons]
      simp only [hp, if_false]
      exact ih (by simpa [hp] using h)

theorem bucketOf_map_replace_ne (m : List (String × List α)) (k k' : String) (v : List α)
    (hne : k' ≠ k) :
    bucketOf (m.map (fun p => if p.1 = k then (k, v) else p)) k' = bucketOf m k' := by
  induction m with
  | nil => rfl
  | cons p m ih =>
    rw [List.map_cons]
    by_cases hp : p.1 = k
    · rw [bucketOf_cons, bucketOf_cons]
      simp only [hp, if_true]
      have h1 : ¬ ((k, v).1 = k') := fun hc => hne hc.symm
      have h2 : ¬ (p.1 = k') := by rw [hp]; exact fun hc => hne hc.symm
      simp only [h1, h2, if_false]
      exact ih
    · rw [bucketOf_cons, bucketOf_cons]
      simp only [hp, if_false]
      by_cases hp' : p.1 = k'
      · simp [hp']
      · simp only [hp', if_false]
        exact ih

theorem bucketOf_mapSet_self (m : List (String × List α)) (k : String) (v : List α) :
    bucketOf (mapSet m k v) k = v := by
  unfold mapSet
  by_cases h : keyPresent m k = true
  · simp only [h, if_true]
    exact bucketOf_map_replace_self m k v h
  · simp only [h]
    rw [if_neg (by simp [h]), bucketOf_append_single_self]
    simp only [Bool.not_eq_true] at h
    simp [h]

theorem bucketOf_mapSet_ne (m : List (String × List α)) (k k' : String) (v : List α)
    (hne : k' ≠ k) : bucketOf (mapSet m k v) k' = bucketOf m k' := by
  unfold mapSet
  by_cases h : keyPresent m k = true
  · simp only [h, if_true]
    exact bucketOf_map_replace_ne m k k' v hne
  · rw [if_neg (by simp [h]), bucketOf_append_single_ne m k k' v hne]

end StockBot

namespace StockBot

/-! ### Well-formedness: JS `Map` keys are unique -/

/-- The keys of a map occur at most once (true of every JS `Map`). -/
def NodupKeys (m : List (String × List α)) : Prop := (m.map Prod.fst).Nodup

theorem nodupKeys_nil : NodupKeys ([] : List (String × List α)) := List.nodup_nil

theorem nodupKeys_cons_iff (p : String × List α) (m : List (String × List α)) :
    NodupKeys (p :: m) ↔ (∀ q ∈ m, q.1 ≠ p.1) ∧ NodupKeys m := by
  simp only [NodupKeys, List.map_cons, List.nodup_cons, List.mem_map]
  constructor
  · rintro ⟨h1, h2⟩
    exact ⟨fun q hq hne => h1 ⟨q, hq, hne⟩, h2⟩
  · rintro ⟨h1, h2⟩
    exact ⟨fun ⟨q, hq, hne⟩ => h1 q hq hne, h2⟩

/-- All state-wide well-formedness the proofs need: unique user keys in the
three alert maps. -/
def WFState (s : BotState) : Prop :=
  NodupKeys s.userPriceAlerts ∧ NodupKeys s.userChangeAlerts ∧ NodupKeys s.userVolumeAlerts

/-! ### Lemmas about `sweep` -/

theorem sweep_nil (fires : α → Bool) : sweep fires [] = [] := rfl

theorem sweep_cons_of_empty (fires : α → Bool) (p : String × List α)
    (m : List (String × List α)) (h : (p.2.filter (fun a => !fires a)).isEmpty = true) :
    sweep fires (p :: m) = sweep fires m := by
  rw [sweep, if_pos h]

theorem sweep_cons_of_nonempty (fires : α → Bool) (p : String × List α)
    (m : List (String × List α)) (h : ¬ (p.2.filter (fun a => !fires a)).isEmpty = true) :
    sweep fires (p :: m) = (p.1, p.2.filter (fun a => !fires a)) :: sweep fires m := by
  rw [sweep, if_neg h]

theorem mem_sweep_key (fires : α → Bool) (m : List (String × List α))
    (q : String × List α) (hq : q ∈ sweep fires m) : ∃ p ∈ m, q.1 = p.1 := by
  induction m with
  | nil => cases hq
  | cons p m ih =>
    by_cases hc : (p.2.filter (fun a => !fires a)).isEmpty = true
    · rw [sweep_cons_of_empty fires p m hc] at hq
      obtain ⟨r, hr, hqr⟩ := ih hq
      exact ⟨r, by simp [hr], hqr⟩
    · rw [sweep_cons_of_nonempty fires p m hc] at hq
      rcases List.mem_cons.mp hq with h1 | h2
      · exact ⟨p, by simp, by rw [h1]⟩
      · obtain ⟨r, hr, hqr⟩ := ih h2
        exact ⟨r, by simp [hr], hqr⟩

theorem nodupKeys_sweep (fires : α → Bool) (m : List (String × List α))
    (h : NodupKeys m) : NodupKeys (sweep fires m) := by
  induction m with
  | nil => exact nodupKeys_nil
  | cons p m ih =>
    rw [nodupKeys_cons_iff] at h
    obtain ⟨hk, hm⟩ := h
    by_cases he : (p.2.filter (fun a => !fires a)).isEmpty = true
    · rw [sweep_cons_of_empty fires p m he]
      exact ih hm
    · rw [sweep_cons_of_nonempty fires p m he, nodupKeys_cons_iff]
      refine ⟨?_, ih hm⟩
      intro q hq
      obtain ⟨r, hr, hqr⟩ := mem_sweep_key fires m q hq
      rw [hqr]
      exact hk r hr

/-- The central per-pass bucket equation: after one per-user loop, a user's
bucket is the old bucket with the firing alerts removed. -/
theorem bucketOf_sweep (fires : α → Bool) (m : List (String × List α)) (u : String)
    (h : NodupKeys m) :
    bucketOf (sweep fires m) u = (bucketOf m u).filter (fun a => !fires a) := by
  induction m with
  | nil => rfl
  | cons p m ih =>
    rw [nodupKeys_cons_iff] at h
    obtain ⟨hk, hm⟩ := h
    by_cases hp : p.1 = u
    · rw [bucketOf_cons]
      simp only [hp, if_true]
      by_cases he : (p.2.filter (fun a => !fires a)).isEmpty = true
      · rw [sweep_cons_of_empty fires p m he]
        rw [List.isEmpty_iff] at he
        rw [he]
        apply bucketOf_eq_nil_of_not_key
        intro q hq
        obtain ⟨r, hr, hqr⟩ := mem_sweep_key fires m q hq
        rw [hqr, ← hp]
        exact hk r hr
      · rw [sweep_cons_of_nonempty fires p m he, bucketOf_cons]
        simp only [hp, if_true]
    · rw [bucketOf_cons]
      simp only [hp, if_false]
      by_cases he : (p.2.filter (fun a => !fires a)).isEmpty = true
      · rw [sweep_cons_of_empty fires p m he]
        exact ih hm
      · rw [sweep_cons_of_nonempty fires p m he, bucketOf_cons]
        simp only [hp, if_false]
        exact ih hm

/-! ### Counting helpers -/

theorem count_filter_neg [DecidableEq β] (l : List β) (p : β → Bool) (x : β)
    (h : p x = false) : (l.filter p).count x = 0 := by
  apply List.count_eq_zero.mpr
  intro hc
  rw [List.mem_filter] at hc
  rw [hc.2] at h
  cases h

theorem count_filter_split [DecidableEq β] (l : List β) (p : β → Bool) (x : β) :
    (l.filter p).count x = if p x = true then l.count x else 0 := by
  by_cases h : p x = true
  · simp [h, List.count_filter]
  · simp only [h, if_false]
    exact count_filter_neg l p x (by simpa using h)

/-- The alerts kept by one per-user pass: a non-firing alert keeps its
multiplicity, a firing one is gone. -/
theorem count_keep (fires : α → Bool) [DecidableEq α] (l : List α) (x : α) :
    (l.filter (fun a => !fires a)).count x =
      if fires x = true then 0 else l.count x := by
  rw [count_filter_split]
  by_cases h : fires x = true <;> simp [h]

end StockBot

namespace StockBot

/-! ### Lemmas about `notifsOf` -/

theorem notifsOf_nil (fires : α → Bool) (mk : String → α → Notification) :
    notifsOf fires mk [] = [] := rfl

theorem notifsOf_cons (fires : α → Bool) (mk : String → α → Notification)
    (p : String × List α) (m : List (String × List α)) :
    notifsOf fires mk (p :: m) = (p.2.filter fires).map (mk p.1) ++ notifsOf fires mk m := rfl

/-- Nothing is counted when no dispatched element can equal the target. -/
theorem count_notifsOf_zero (fires : α → Bool) (mk : String → α → Notification)
    (m : List (String × List α)) (n : Notification)
    (h : ∀ p ∈ m, ∀ a ∈ p.2, fires a = true → mk p.1 a ≠ n) :
    (notifsOf fires mk m).count n = 0 := by
  induction m with
  | nil => rfl
  | cons p m ih =>
    rw [notifsOf_cons, List.count_append]
    rw [ih (fun q hq => h q (by simp [hq]))]
    rw [Nat.add_zero]
    apply List.count_eq_zero.mpr
    intro hc
    rw [List.mem_map] at hc
    obtain ⟨a, ha, hmk⟩ := hc
    rw [List.mem_filter] at ha
    exact h p (by simp) a ha.1 ha.2 hmk

theorem count_map_eq_count [DecidableEq β] (f : β → Notification) (l : List β) (x : β)
    (h : ∀ a, f a = f x ↔ a = x) : (l.map f).count (f x) = l.count x := by
  induction l with
  | nil => rfl
  | cons a l ih =>
    rw [List.map_cons, List.count_cons, List.count_cons, ih]
    congr 1
    by_cases ha : a = x
    · simp [ha]
    · have hne : ¬ f a = f x := fun hc => ha ((h a).mp hc)
      simp [ha, hne]

/-- The number of dispatched notifications equal to `mk u x` produced by one
per-user loop: the multiplicity of `x` in `u`'s bucket when `x` fires, `0`
otherwise. -/
theorem count_notifsOf [DecidableEq α] (fires : α → Bool) (mk : String → α → Notification)
    (m : List (String × List α)) (u : String) (x : α) (hwf : NodupKeys m)
    (hinj : ∀ u' a', mk u' a' = mk u x ↔ (u' = u ∧ a' = x)) :
    (notifsOf fires mk m).count (mk u x) =
      if fires x = true then (bucketOf m u).count x else 0 := by
  induction m with
  | nil =>
    rw [notifsOf_nil, bucketOf_nil]
    by_cases h : fires x = true <;> simp [h]
  | cons p m ih =>
    rw [nodupKeys_cons_iff] at hwf
    obtain ⟨hk, hm⟩ := hwf
    rw [notifsOf_cons, List.count_append, bucketOf_cons]
    by_cases hp : p.1 = u
    · have htail : (notifsOf fires mk m).count (mk u x) = 0 := by
        apply count_notifsOf_zero
        intro q hq a _ _ hmk
        have := ((hinj q.1 a).mp hmk).1
        exact hk q hq (this.trans hp.symm) |>.elim
      rw [htail, Nat.add_zero, hp]
      rw [count_map_eq_count (mk u) (p.2.filter fires) x
        (fun a => by rw [hinj u a]; simp)]
      rw [count_filter_split]
      simp
    · have hhead : ((p.2.filter fires).map (mk p.1)).count (mk u x) = 0 := by
        apply List.count_eq_zero.mpr
        intro hc
        rw [List.mem_map] at hc
        obtain ⟨a, _, hmk⟩ := hc
        exact hp ((hinj p.1 a).mp hmk).1
      rw [hhead, Nat.zero_add, ih hm]
      simp only [hp, if_false]

end StockBot

namespace StockBot

/-! ### The pruning invariant -/

/-- No user entry holds an empty collection (spec: "absence of key, not
empty collection"). -/
def Pruned (m : List (String × List α)) : Prop := ∀ p ∈ m, p.2 ≠ []

theorem pruned_nil : Pruned ([] : List (String × List α)) := by
  intro p hp
  cases hp

/-- One per-user evaluator loop always leaves the map pruned: a user whose
remaining list is empty is deleted, never stored empty. -/
theorem pruned_sweep (fires : α → Bool) (m : List (String × List α)) :
    Pruned (sweep fires m) := by
  induction m with
  | nil => exact pruned_nil
  | cons p m ih =>
    by_cases he : (p.2.filter (fun a => !fires a)).isEmpty = true
    · rw [sweep_cons_of_empty fires p m he]
      exact ih
    · rw [sweep_cons_of_nonempty fires p m he]
      intro q hq
      rcases List.mem_cons.mp hq with h1 | h2
      · rw [h1]
        intro hc
        rw [List.isEmpty_iff] at he
        exact he hc
      · exact ih q h2

theorem pruned_mapSet (m : List (String × List α)) (k : String) (v : List α)
    (hm : Pruned m) (hv : v ≠ []) : Pruned (mapSet m k v) := by
  unfold mapSet
  by_cases h : keyPresent m k = true
  · rw [if_pos h]
    intro q hq
    rw [List.mem_map] at hq
    obtain ⟨p, hp, he⟩ := hq
    by_cases hc : p.1 = k
    · rw [← he]
      simpa [hc] using hv
    · rw [← he]
      simpa [hc] using hm p hp
  · rw [if_neg h]
    intro q hq
    rcases List.mem_append.mp hq with h1 | h2
    · exact hm q h1
    · rw [List.mem_singleton] at h2
      rw [h2]
      exact hv

theorem pruned_mapDelete (m : List (String × List α)) (k : String)
    (hm : Pruned m) : Pruned (mapDelete m k) := by
  intro q hq
  exact hm q (List.mem_of_mem_filter hq)

theorem keyPresent_mapDelete_self (m : List (String × List α)) (k : String) :
    keyPresent (mapDelete m k) k = false := by
  unfold mapDelete keyPresent
  rw [Bool.eq_false_iff]
  intro hc
  rw [List.any_eq_true] at hc
  obtain ⟨p, hp, he⟩ := hc
  rw [List.mem_filter] at hp
  simp only [decide_eq_true_eq] at hp he
  exact hp.2 he

/-- With the map pruned, key membership is the same as having a nonempty
bucket — `map.has(u)` doubles as a "has any alerts" test. -/
theorem keyPresent_iff_bucket_ne_nil (m : List (String × List α)) (k : String)
    (hm : Pruned m) : keyPresent m k = true ↔ bucketOf m k ≠ [] := by
  induction m with
  | nil => simp [keyPresent_nil, bucketOf_nil]
  | cons p m ih =>
    rw [keyPresent_cons, bucketOf_cons]
    by_cases hp : p.1 = k
    · simp [hp]
      exact hm p (by simp)
    · simp [hp]
      exact ih (fun q hq => hm q (by simp [hq]))

end StockBot

namespace StockBot

/-! ### History-window lemmas (app.js lines 291-296) -/

/-- The append-then-prune step is a sliding window: it keeps the suffix of
`h ++ [v]` that fits the limit. -/
theorem appendHistory_eq_drop (h : List Rat) (v : Rat) :
    appendHistory h v = (h ++ [v]).drop (h.length + 1 - VOLUME_HISTORY_LIMIT) := by
  unfold appendHistory
  by_cases hc : (h ++ [v]).length > VOLUME_HISTORY_LIMIT
  · rw [if_pos hc]
    simp
  · rw [if_neg hc]
    simp only [List.length_append, List.length_singleton] at hc
    have h0 : h.length + 1 - VOLUME_HISTORY_LIMIT = 0 := by omega
    rw [h0, List.drop_zero]

/-- The retained window never exceeds the limit, whatever it held before. -/
theorem length_appendHistory_le (h : List Rat) (v : Rat) :
    (appendHistory h v).length ≤ VOLUME_HISTORY_LIMIT := by
  unfold appendHistory
  by_cases hc : (h ++ [v]).length > VOLUME_HISTORY_LIMIT
  · rw [if_pos hc]
    rw [List.length_drop]
    omega
  · rw [if_neg hc]
    omega

/-- Iterating the append step from a window within the limit retains exactly
the most recent `VOLUME_HISTORY_LIMIT` samples, in arrival order. -/
theorem foldl_appendHistory_eq (samples : List Rat) (h : List Rat)
    (hlen : h.length ≤ VOLUME_HISTORY_LIMIT) :
    samples.foldl appendHistory h =
      (h ++ samples).drop ((h ++ samples).length - VOLUME_HISTORY_LIMIT) := by
  induction samples generalizing h with
  | nil =>
    rw [List.foldl_nil, List.append_nil]
    have h0 : h.length - VOLUME_HISTORY_LIMIT = 0 := by omega
    rw [h0, List.drop_zero]
  | cons v rest ih =>
    rw [List.foldl_cons]
    have h1 : (appendHistory h v).length ≤ VOLUME_HISTORY_LIMIT :=
      length_appendHistory_le h v
    rw [ih (appendHistory h v) h1]
    rw [appendHistory_eq_drop h v]
    have hd : h.length + 1 - VOLUME_HISTORY_LIMIT ≤ (h ++ [v]).length := by
      rw [List.length_append]
      simp only [List.length_singleton]
      omega
    rw [← List.drop_append_of_le_length hd, List.drop_drop]
    have harr : (h ++ [v]) ++ rest = h ++ v :: rest := by
      rw [List.append_assoc]
      rfl
    rw [harr]
    congr 1
    rw [List.length_drop]
    simp only [List.length_append, List.length_cons, List.length_singleton]
    omega

/-! ### Dedup-replace lemmas (app.js lines 339-343) -/

theorem setPriceTargetAtFirst_cons (a : PriceAlert) (l : List PriceAlert)
    (code : String) (dir : Direction) (price : Rat) :
    setPriceTargetAtFirst (a :: l) code dir price =
      if priceKeyMatches code dir a then { a with targetPrice := price } :: l
      else a :: setPriceTargetAtFirst l code dir price := rfl

theorem length_setPriceTargetAtFirst (l : List PriceAlert) (code : String)
    (dir : Direction) (price : Rat) :
    (setPriceTargetAtFirst l code dir price).length = l.length := by
  induction l with
  | nil => rfl
  | cons a l ih =>
    rw [setPriceTargetAtFirst_cons]
    by_cases h : priceKeyMatches code dir a = true
    · rw [if_pos h]
      simp
    · rw [if_neg h]
      simp [ih]

/-- Replacing the first key match is `List.set` at the `findIndex` position
with the fully keyed new alert. -/
theorem setPriceTargetAtFirst_eq_set (l : List PriceAlert) (code : String)
    (dir : Direction) (price : Rat) (h : l.any (priceKeyMatches code dir) = true) :
    l.findIdx (priceKeyMatches code dir) < l.length ∧
    setPriceTargetAtFirst l code dir price =
      l.set (l.findIdx (priceKeyMatches code dir))
        { stockCode := code, direction := dir, targetPrice := price } := by
  induction l with
  | nil => cases h
  | cons a l ih =>
    by_cases ha : priceKeyMatches code dir a = true
    · have hidx : (a :: l).findIdx (priceKeyMatches code dir) = 0 := by
        rw [List.findIdx_cons, ha, cond_true]
      refine ⟨by rw [hidx]; simp, ?_⟩
      rw [setPriceTargetAtFirst_cons, if_pos ha, hidx, List.set_cons_zero]
      have hmatch := ha
      unfold priceKeyMatches at hmatch
      rw [Bool.and_eq_true, decide_eq_true_eq, decide_eq_true_eq] at hmatch
      obtain ⟨h1, h2⟩ := hmatch
      cases a
      simp only at h1 h2
      rw [h1, h2]
    · have hfa : priceKeyMatches code dir a = false := Bool.eq_false_iff.mpr ha
      have h' : l.any (priceKeyMatches code dir) = true := by
        rw [List.any_cons, hfa, Bool.false_or] at h
        exact h
      obtain ⟨ihlt, iheq⟩ := ih h'
      have hidx : (a :: l).findIdx (priceKeyMatches code dir) =
          l.findIdx (priceKeyMatches code dir) + 1 := by
        rw [List.findIdx_cons, hfa, cond_false]
      refine ⟨by rw [hidx]; simpa using ihlt, ?_⟩
      rw [setPriceTargetAtFirst_cons, if_neg ha, hidx, List.set_cons_succ, iheq]

end StockBot

namespace StockBot

/-! ### Per-pass equations and invariant preservation -/

theorem processStock_none (fetch : String → Option StockData) (s : BotState) (code : String)
    (h : fetch code = none) : processStock fetch s code = (s, []) := by
  rw [processStock, h]

theorem processStock_some (fetch : String → Option StockData) (s : BotState) (code : String)
    (sd : StockData) (h : fetch code = some sd) :
    processStock fetch s code = processStockWith sd code s := by
  rw [processStock, h]

theorem processStockWith_price (sd : StockData) (code : String) (s : BotState) :
    (processStockWith sd code s).1.userPriceAlerts =
      sweep (firesPrice code (currentPriceOf sd)) s.userPriceAlerts := rfl

theorem processStockWith_change (sd : StockData) (code : String) (s : BotState) :
    (processStockWith sd code s).1.userChangeAlerts =
      sweep (firesChange code (percentageChangeOf sd)) s.userChangeAlerts := rfl

theorem processStockWith_volume (sd : StockData) (code : String) (s : BotState) :
    (processStockWith sd code s).1.userVolumeAlerts =
      sweep (firesVolume code (bucketOf s.volumeHistory code) (currentVolumeOf sd))
        s.userVolumeAlerts := rfl

theorem processStockWith_hist (sd : StockData) (code : String) (s : BotState) :
    (processStockWith sd code s).1.volumeHistory =
      mapSet s.volumeHistory code
        (appendHistory (bucketOf s.volumeHistory code) (currentVolumeOf sd)) := rfl

theorem processStockWith_notifs (sd : StockData) (code : String) (s : BotState) :
    (processStockWith sd code s).2 =
      notifsOf (firesPrice code (currentPriceOf sd))
          (fun u a => .price u a (currentPriceOf sd)) s.userPriceAlerts
        ++ notifsOf (firesChange code (percentageChangeOf sd))
          (fun u a => .change u a (percentageChangeOf sd)) s.userChangeAlerts
        ++ notifsOf (firesVolume code (bucketOf s.volumeHistory code) (currentVolumeOf sd))
          (fun u a => .volume u a (currentVolumeOf sd)) s.userVolumeAlerts := rfl

theorem wf_processStock (fetch : String → Option StockData) (s : BotState) (code : String)
    (h : WFState s) : WFState (processStock fetch s code).1 := by
  cases hf : fetch code with
  | none => rw [processStock_none fetch s code hf]; exact h
  | some sd =>
    rw [processStock_some fetch s code sd hf]
    exact ⟨nodupKeys_sweep _ _ h.1, nodupKeys_sweep _ _ h.2.1, nodupKeys_sweep _ _ h.2.2⟩

theorem runCycleFrom_nil (fetch : String → Option StockData)
    (st : BotState × List Notification) : runCycleFrom fetch [] st = st := rfl

theorem runCycleFrom_cons (fetch : String → Option StockData) (c : String)
    (codes : List String) (st : BotState × List Notification) :
    runCycleFrom fetch (c :: codes) st =
      runCycleFrom fetch codes (cycleStep fetch st c) := rfl

theorem cycleStep_fst (fetch : String → Option StockData)
    (st : BotState × List Notification) (c : String) :
    (cycleStep fetch st c).1 = (processStock fetch st.1 c).1 := rfl

theorem cycleStep_snd (fetch : String → Option StockData)
    (st : BotState × List Notification) (c : String) :
    (cycleStep fetch st c).2 = st.2 ++ (processStock fetch st.1 c).2 := rfl

theorem wf_runCycleFrom (fetch : String → Option StockData) (codes : List String)
    (st : BotState × List Notification) (h : WFState st.1) :
    WFState (runCycleFrom fetch codes st).1 := by
  induction codes generalizing st with
  | nil => exact h
  | cons c codes ih =>
    rw [runCycleFrom_cons]
    exact ih _ (by rw [cycleStep_fst]; exact wf_processStock fetch st.1 c h)

/-! ### History evolution over a cycle -/

theorem hist_processStock_ne (fetch : String → Option StockData) (s : BotState)
    (c c0 : String) (hne : c0 ≠ c) :
    bucketOf (processStock fetch s c).1.volumeHistory c0 = bucketOf s.volumeHistory c0 := by
  cases hf : fetch c with
  | none => rw [processStock_none fetch s c hf]
  | some sd =>
    rw [processStock_some fetch s c sd hf, processStockWith_hist]
    exact bucketOf_mapSet_ne _ _ _ _ hne

theorem hist_processStock_self (fetch : String → Option StockData) (s : BotState)
    (c : String) (sd : StockData) (hf : fetch c = some sd) :
    bucketOf (processStock fetch s c).1.volumeHistory c =
      appendHistory (bucketOf s.volumeHistory c) (currentVolumeOf sd) := by
  rw [processStock_some fetch s c sd hf, processStockWith_hist]
  exact bucketOf_mapSet_self _ _ _

theorem hist_runCycle_skip (fetch : String → Option StockData) (codes : List String)
    (st : BotState × List Notification) (c0 : String)
    (h : ∀ c ∈ codes, c = c0 → fetch c0 = none) :
    bucketOf (runCycleFrom fetch codes st).1.volumeHistory c0 =
      bucketOf st.1.volumeHistory c0 := by
  induction codes generalizing st with
  | nil => rfl
  | cons c codes ih =>
    rw [runCycleFrom_cons]
    rw [ih _ (fun d hd => h d (by simp [hd]))]
    rw [cycleStep_fst]
    by_cases hc : c0 = c
    · have hn : fetch c0 = none := h c (by simp) hc.symm
      rw [← hc]
      rw [processStock_none fetch st.1 c0 hn]
    · exact hist_processStock_ne fetch st.1 c c0 hc

theorem hist_runCycle_mem (fetch : String → Option StockData) (codes : List String)
    (st : BotState × List Notification) (c0 : String) (sd : StockData)
    (hnd : codes.Nodup) (hmem : c0 ∈ codes) (hf : fetch c0 = some sd) :
    bucketOf (runCycleFrom fetch codes st).1.volumeHistory c0 =
      appendHistory (bucketOf st.1.volumeHistory c0) (currentVolumeOf sd) := by
  induction codes generalizing st with
  | nil => cases hmem
  | cons c codes ih =>
    rw [List.nodup_cons] at hnd
    rw [runCycleFrom_cons]
    by_cases hc : c0 = c
    · have hnot : ∀ d ∈ codes, d = c0 → fetch c0 = none := by
        intro d hd hdc
        rw [hdc, hc] at hd
        exact absurd hd hnd.1
      rw [hist_runCycle_skip fetch codes _ c0 hnot, cycleStep_fst, ← hc,
        hist_processStock_self fetch st.1 c0 sd hf]
    · have hmem' : c0 ∈ codes := by
        rcases List.mem_cons.mp hmem with h1 | h2
        · exact absurd h1 hc
        · exact h2
      rw [ih _ hnd.2 hmem']
      rw [cycleStep_fst, hist_processStock_ne fetch st.1 c c0 hc]

end StockBot

namespace StockBot

/-! ### Price alerts through a cycle -/

theorem price_count_pass (fetch : String → Option StockData) (s : BotState) (c u : String)
    (a : PriceAlert) (hwf : NodupKeys s.userPriceAlerts)
    (hno : ∀ sd, fetch c = some sd → firesPrice c (currentPriceOf sd) a = false) :
    (bucketOf (processStock fetch s c).1.userPriceAlerts u).count a =
      (bucketOf s.userPriceAlerts u).count a := by
  cases hf : fetch c with
  | none => rw [processStock_none fetch s c hf]
  | some sd =>
    rw [processStock_some fetch s c sd hf, processStockWith_price,
      bucketOf_sweep _ _ _ hwf, count_keep, hno sd hf]
    simp

theorem price_notif_pass_zero (fetch : String → Option StockData) (s : BotState)
    (c u : String) (a : PriceAlert) (cp : Rat)
    (hno : ∀ sd, fetch c = some sd → firesPrice c (currentPriceOf sd) a = false) :
    ((processStock fetch s c).2).count (.price u a cp) = 0 := by
  cases hf : fetch c with
  | none =>
    rw [processStock_none fetch s c hf]
    rfl
  | some sd =>
    rw [processStock_some fetch s c sd hf, processStockWith_notifs,
      List.count_append, List.count_append]
    have h1 : (notifsOf (firesPrice c (currentPriceOf sd))
        (fun u' a' => Notification.price u' a' (currentPriceOf sd))
        s.userPriceAlerts).count (.price u a cp) = 0 := by
      apply count_notifsOf_zero
      intro p hp x hx hfx hcn
      rw [Notification.price.injEq] at hcn
      rw [hcn.2.1] at hfx
      rw [hno sd hf] at hfx
      cases hfx
    have h2 : (notifsOf (firesChange c (percentageChangeOf sd))
        (fun u' a' => Notification.change u' a' (percentageChangeOf sd))
        s.userChangeAlerts).count (.price u a cp) = 0 := by
      apply count_notifsOf_zero
      intro p hp x hx hfx hcn
      exact Notification.noConfusion hcn
    have h3 : (notifsOf (firesVolume c (bucketOf s.volumeHistory c) (currentVolumeOf sd))
        (fun u' a' => Notification.volume u' a' (currentVolumeOf sd))
        s.userVolumeAlerts).count (.price u a cp) = 0 := by
      apply count_notifsOf_zero
      intro p hp x hx hfx hcn
      exact Notification.noConfusion hcn
    rw [h1, h2, h3]

theorem price_fire_pass (fetch : String → Option StockData) (s : BotState) (c u : String)
    (a : PriceAlert) (sd : StockData) (hwf : NodupKeys s.userPriceAlerts)
    (hf : fetch c = some sd) (hfire : firesPrice c (currentPriceOf sd) a = true) :
    (bucketOf (processStock fetch s c).1.userPriceAlerts u).count a = 0 ∧
    ((processStock fetch s c).2).count (.price u a (currentPriceOf sd)) =
      (bucketOf s.userPriceAlerts u).count a := by
  constructor
  · rw [processStock_some fetch s c sd hf, processStockWith_price,
      bucketOf_sweep _ _ _ hwf, count_keep, hfire]
    simp
  · rw [processStock_some fetch s c sd hf, processStockWith_notifs,
      List.count_append, List.count_append]
    have hinj : ∀ (u' : String) (a' : PriceAlert),
        (Notification.price u' a' (currentPriceOf sd)
          = Notification.price u a (currentPriceOf sd)) ↔ (u' = u ∧ a' = a) := by
      intro u' a'
      rw [Notification.price.injEq]
      constructor
      · intro h
        exact ⟨h.1, h.2.1⟩
      · intro h
        exact ⟨h.1, h.2, rfl⟩
    rw [count_notifsOf _ _ _ _ _ hwf hinj, hfire]
    have h2 : (notifsOf (firesChange c (percentageChangeOf sd))
        (fun u' a' => Notification.change u' a' (percentageChangeOf sd))
        s.userChangeAlerts).count (.price u a (currentPriceOf sd)) = 0 := by
      apply count_notifsOf_zero
      intro p hp x hx hfx hcn
      exact Notification.noConfusion hcn
    have h3 : (notifsOf (firesVolume c (bucketOf s.volumeHistory c) (currentVolumeOf sd))
        (fun u' a' => Notification.volume u' a' (currentVolumeOf sd))
        s.userVolumeAlerts).count (.price u a (currentPriceOf sd)) = 0 := by
      apply count_notifsOf_zero
      intro p hp x hx hfx hcn
      exact Notification.noConfusion hcn
    rw [h2, h3]
    simp

/-- Across a whole cycle, a price alert whose trigger never holds for its own
identifier keeps its multiplicity in its user's bucket, and no notification
for it is dispatched. -/
theorem price_frame_cycle (fetch : String → Option StockData) (codes : List String)
    (st : BotState × List Notification) (u : String) (a : PriceAlert) (cp : Rat)
    (hwf : WFState st.1)
    (hno : ∀ sd, fetch a.stockCode = some sd → priceTrigger (currentPriceOf sd) a = false) :
    (bucketOf (runCycleFrom fetch codes st).1.userPriceAlerts u).count a =
      (bucketOf st.1.userPriceAlerts u).count a ∧
    ((runCycleFrom fetch codes st).2).count (.price u a cp) =
      st.2.count (.price u a cp) := by
  induction codes generalizing st with
  | nil => exact ⟨rfl, rfl⟩
  | cons c codes ih =>
    rw [runCycleFrom_cons]
    have hz : ∀ sd, fetch c = some sd → firesPrice c (currentPriceOf sd) a = false := by
      intro sd hf
      unfold firesPrice
      by_cases hc : a.stockCode = c
      · rw [← hc] at hf
        rw [hno sd hf]
        simp
      · simp [hc]
    obtain ⟨ih1, ih2⟩ := ih (cycleStep fetch st c)
      (by rw [cycleStep_fst]; exact wf_processStock fetch st.1 c hwf)
    refine ⟨?_, ?_⟩
    · rw [ih1, cycleStep_fst, price_count_pass fetch st.1 c u a hwf.1 hz]
    · rw [ih2, cycleStep_snd, List.count_append,
        price_notif_pass_zero fetch st.1 c u a cp hz, Nat.add_zero]

/-- Passes over other identifiers do not touch a price alert or dispatch for
it. -/
theorem price_absent_cycle (fetch : String → Option StockData) (codes : List String)
    (st : BotState × List Notification) (u : String) (a : PriceAlert) (cp : Rat)
    (hwf : WFState st.1) (hnot : a.stockCode ∉ codes) :
    (bucketOf (runCycleFrom fetch codes st).1.userPriceAlerts u).count a =
      (bucketOf st.1.userPriceAlerts u).count a ∧
    ((runCycleFrom fetch codes st).2).count (.price u a cp) =
      st.2.count (.price u a cp) := by
  induction codes generalizing st with
  | nil => exact ⟨rfl, rfl⟩
  | cons c codes ih =>
    rw [runCycleFrom_cons]
    have hc : a.stockCode ≠ c := fun h => hnot (by rw [h]; simp)
    have hz : ∀ sd, fetch c = some sd → firesPrice c (currentPriceOf sd) a = false := by
      intro sd _
      unfold firesPrice
      simp [hc]
    have hnot' : a.stockCode ∉ codes := fun h => hnot (by simp [h])
    obtain ⟨ih1, ih2⟩ := ih (cycleStep fetch st c)
      (by rw [cycleStep_fst]; exact wf_processStock fetch st.1 c hwf) hnot'
    refine ⟨?_, ?_⟩
    · rw [ih1, cycleStep_fst, price_count_pass fetch st.1 c u a hwf.1 hz]
    · rw [ih2, cycleStep_snd, List.count_append,
        price_notif_pass_zero fetch st.1 c u a cp hz, Nat.add_zero]

/-- Across a whole cycle, a price alert (held once) whose trigger holds for
the snapshot fetched for its identifier is removed, and exactly one
notification is dispatched for it. -/
theorem price_fire_cycle (fetch : String → Option StockData) (codes : List String)
    (st : BotState × List Notification) (u : String) (a : PriceAlert) (sd : StockData)
    (hwf : WFState st.1) (hnd : codes.Nodup) (hmem : a.stockCode ∈ codes)
    (hf : fetch a.stockCode = some sd)
    (htrig : priceTrigger (currentPriceOf sd) a = true)
    (hcount : (bucketOf st.1.userPriceAlerts u).count a = 1) :
    (bucketOf (runCycleFrom fetch codes st).1.userPriceAlerts u).count a = 0 ∧
    ((runCycleFrom fetch codes st).2).count (.price u a (currentPriceOf sd)) =
      st.2.count (.price u a (currentPriceOf sd)) + 1 := by
  induction codes generalizing st with
  | nil => cases hmem
  | cons c codes ih =>
    rw [List.nodup_cons] at hnd
    rw [runCycleFrom_cons]
    by_cases hc : a.stockCode = c
    · have hfc : fetch c = some sd := by rw [← hc]; exact hf
      have hfire : firesPrice c (currentPriceOf sd) a = true := by
        unfold firesPrice
        rw [htrig]
        simp [hc]
      obtain ⟨h0, h1⟩ := price_fire_pass fetch st.1 c u a sd hwf.1 hfc hfire
      have hnot : a.stockCode ∉ codes := by
        rw [hc]
        exact hnd.1
      obtain ⟨habs1, habs2⟩ := price_absent_cycle fetch codes (cycleStep fetch st c) u a
        (currentPriceOf sd)
        (by rw [cycleStep_fst]; exact wf_processStock fetch st.1 c hwf) hnot
      refine ⟨?_, ?_⟩
      · rw [habs1, cycleStep_fst]
        exact h0
      · rw [habs2, cycleStep_snd, List.count_append, h1, hcount]
    · have hz : ∀ sd', fetch c = some sd' →
          firesPrice c (currentPriceOf sd') a = false := by
        intro sd' _
        unfold firesPrice
        simp [hc]
      have hmem' : a.stockCode ∈ codes := by
        rcases List.mem_cons.mp hmem with h1 | h2
        · exact absurd h1 hc
        · exact h2
      have hwf' : WFState (cycleStep fetch st c).1 := by
        rw [cycleStep_fst]
        exact wf_processStock fetch st.1 c hwf
      have hcount' : (bucketOf (cycleStep fetch st c).1.userPriceAlerts u).count a = 1 := by
        rw [cycleStep_fst, price_count_pass fetch st.1 c u a hwf.1 hz]
        exact hcount
      obtain ⟨ih1, ih2⟩ := ih (cycleStep fetch st c) hwf' hnd.2 hmem' hcount'
      refine ⟨ih1, ?_⟩
      rw [ih2, cycleStep_snd, List.count_append,
        price_notif_pass_zero fetch st.1 c u a (currentPriceOf sd) hz, Nat.add_zero]

end StockBot

namespace StockBot

/-! ### Change alerts through a cycle -/

theorem change_count_pass (fetch : String → Option StockData) (s : BotState) (c u : String)
    (a : ChangeAlert) (hwf : NodupKeys s.userChangeAlerts)
    (hno : ∀ sd, fetch c = some sd → firesChange c (percentageChangeOf sd) a = false) :
    (bucketOf (processStock fetch s c).1.userChangeAlerts u).count a =
      (bucketOf s.userChangeAlerts u).count a := by
  cases hf : fetch c with
  | none => rw [processStock_none fetch s c hf]
  | some sd =>
    rw [processStock_some fetch s c sd hf, processStockWith_change,
      bucketOf_sweep _ _ _ hwf, count_keep, hno sd hf]
    simp

theorem change_notif_pass_zero (fetch : String → Option StockData) (s : BotState)
    (c u : String) (a : ChangeAlert) (pc : Rat)
    (hno : ∀ sd, fetch c = some sd → firesChange c (percentageChangeOf sd) a = false) :
    ((processStock fetch s c).2).count (.change u a pc) = 0 := by
  cases hf : fetch c with
  | none =>
    rw [processStock_none fetch s c hf]
    rfl
  | some sd =>
    rw [processStock_some fetch s c sd hf, processStockWith_notifs,
      List.count_append, List.count_append]
    have h1 : (notifsOf (firesPrice c (currentPriceOf sd))
        (fun u' a' => Notification.price u' a' (currentPriceOf sd))
        s.userPriceAlerts).count (.change u a pc) = 0 := by
      apply count_notifsOf_zero
      intro p hp x hx hfx hcn
      exact Notification.noConfusion hcn
    have h2 : (notifsOf (firesChange c (percentageChangeOf sd))
        (fun u' a' => Notification.change u' a' (percentageChangeOf sd))
        s.userChangeAlerts).count (.change u a pc) = 0 := by
      apply count_notifsOf_zero
      intro p hp x hx hfx hcn
      rw [Notification.change.injEq] at hcn
      rw [hcn.2.1] at hfx
      rw [hno sd hf] at hfx
      cases hfx
    have h3 : (notifsOf (firesVolume c (bucketOf s.volumeHistory c) (currentVolumeOf sd))
        (fun u' a' => Notification.volume u' a' (currentVolumeOf sd))
        s.userVolumeAlerts).count (.change u a pc) = 0 := by
      apply count_notifsOf_zero
      intro p hp x hx hfx hcn
      exact Notification.noConfusion hcn
    rw [h1, h2, h3]

theorem change_fire_pass (fetch : String → Option StockData) (s : BotState) (c u : String)
    (a : ChangeAlert) (sd : StockData) (hwf : NodupKeys s.userChangeAlerts)
    (hf : fetch c = some sd) (hfire : firesChange c (percentageChangeOf sd) a = true) :
    (bucketOf (processStock fetch s c).1.userChangeAlerts u).count a = 0 ∧
    ((processStock fetch s c).2).count (.change u a (percentageChangeOf sd)) =
      (bucketOf s.userChangeAlerts u).count a := by
  constructor
  · rw [processStock_some fetch s c sd hf, processStockWith_change,
      bucketOf_sweep _ _ _ hwf, count_keep, hfire]
    simp
  · rw [processStock_some fetch s c sd hf, processStockWith_notifs,
      List.count_append, List.count_append]
    have hinj : ∀ (u' : String) (a' : ChangeAlert),
        (Notification.change u' a' (percentageChangeOf sd)
          = Notification.change u a (percentageChangeOf sd)) ↔ (u' = u ∧ a' = a) := by
      intro u' a'
      rw [Notification.change.injEq]
      constructor
      · intro h
        exact ⟨h.1, h.2.1⟩
      · intro h
        exact ⟨h.1, h.2, rfl⟩
    rw [count_notifsOf _ _ _ _ _ hwf hinj, hfire]
    have h1 : (notifsOf (firesPrice c (currentPriceOf sd))
        (fun u' a' => Notification.price u' a' (currentPriceOf sd))
        s.userPriceAlerts).count (.change u a (percentageChangeOf sd)) = 0 := by
      apply count_notifsOf_zero
      intro p hp x hx hfx hcn
      exact Notification.noConfusion hcn
    have h3 : (notifsOf (firesVolume c (bucketOf s.volumeHistory c) (currentVolumeOf sd))
        (fun u' a' => Notification.volume u' a' (currentVolumeOf sd))
        s.userVolumeAlerts).count (.change u a (percentageChangeOf sd)) = 0 := by
      apply count_notifsOf_zero
      intro p hp x hx hfx hcn
      exact Notification.noConfusion hcn
    rw [h1, h3]
    simp

/-- Across a whole cycle, a change alert whose trigger never holds for its
own identifier keeps its multiplicity, and nothing is dispatched for it. -/
theorem change_frame_cycle (fetch : String → Option StockData) (codes : List String)
    (st : BotState × List Notification) (u : String) (a : ChangeAlert) (pc : Rat)
    (hwf : WFState st.1)
    (hno : ∀ sd, fetch a.stockCode = some sd →
      changeTrigger (percentageChangeOf sd) a = false) :
    (bucketOf (runCycleFrom fetch codes st).1.userChangeAlerts u).count a =
      (bucketOf st.1.userChangeAlerts u).count a ∧
    ((runCycleFrom fetch codes st).2).count (.change u a pc) =
      st.2.count (.change u a pc) := by
  induction codes generalizing st with
  | nil => exact ⟨rfl, rfl⟩
  | cons c codes ih =>
    rw [runCycleFrom_cons]
    have hz : ∀ sd, fetch c = some sd → firesChange c (percentageChangeOf sd) a = false := by
      intro sd hf
      unfold firesChange
      by_cases hc : a.stockCode = c
      · rw [← hc] at hf
        rw [hno sd hf]
        simp
      · simp [hc]
    obtain ⟨ih1, ih2⟩ := ih (cycleStep fetch st c)
      (by rw [cycleStep_fst]; exact wf_processStock fetch st.1 c hwf)
    refine ⟨?_, ?_⟩
    · rw [ih1, cycleStep_fst, change_count_pass fetch st.1 c u a hwf.2.1 hz]
    · rw [ih2, cycleStep_snd, List.count_append,
        change_notif_pass_zero fetch st.1 c u a pc hz, Nat.add_zero]

/-- Passes over other identifiers do not touch a change alert or dispatch
for it. -/
theorem change_absent_cycle (fetch : String → Option StockData) (codes : List String)
    (st : BotState × List Notification) (u : String) (a : ChangeAlert) (pc : Rat)
    (hwf : WFState st.1) (hnot : a.stockCode ∉ codes) :
    (bucketOf (runCycleFrom fetch codes st).1.userChangeAlerts u).count a =
      (bucketOf st.1.userChangeAlerts u).count a ∧
    ((runCycleFrom fetch codes st).2).count (.change u a pc) =
      st.2.count (.change u a pc) := by
  induction codes generalizing st with
  | nil => exact ⟨rfl, rfl⟩
  | cons c codes ih =>
    rw [runCycleFrom_cons]
    have hc : a.stockCode ≠ c := fun h => hnot (by rw [h]; simp)
    have hz : ∀ sd, fetch c = some sd → firesChange c (percentageChangeOf sd) a = false := by
      intro sd _
      unfold firesChange
      simp [hc]
    have hnot' : a.stockCode ∉ codes := fun h => hnot (by simp [h])
    obtain ⟨ih1, ih2⟩ := ih (cycleStep fetch st c)
      (by rw [cycleStep_fst]; exact wf_processStock fetch st.1 c hwf) hnot'
    refine ⟨?_, ?_⟩
    · rw [ih1, cycleStep_fst, change_count_pass fetch st.1 c u a hwf.2.1 hz]
    · rw [ih2, cycleStep_snd, List.count_append,
        change_notif_pass_zero fetch st.1 c u a pc hz, Nat.add_zero]

/-- Across a whole cycle, a change alert (held once) whose trigger holds for
the snapshot fetched for its identifier is removed, and exactly one
notification is dispatched for it. -/
theorem change_fire_cycle (fetch : String → Option StockData) (codes : List String)
    (st : BotState × List Notification) (u : String) (a : ChangeAlert) (sd : StockData)
    (hwf : WFState st.1) (hnd : codes.Nodup) (hmem : a.stockCode ∈ codes)
    (hf : fetch a.stockCode = some sd)
    (htrig : changeTrigger (percentageChangeOf sd) a = true)
    (hcount : (bucketOf st.1.userChangeAlerts u).count a = 1) :
    (bucketOf (runCycleFrom fetch codes st).1.userChangeAlerts u).count a = 0 ∧
    ((runCycleFrom fetch codes st).2).count (.change u a (percentageChangeOf sd)) =
      st.2.count (.change u a (percentageChangeOf sd)) + 1 := by
  induction codes generalizing st with
  | nil => cases hmem
  | cons c codes ih =>
    rw [List.nodup_cons] at hnd
    rw [runCycleFrom_cons]
    by_cases hc : a.stockCode = c
    · have hfc : fetch c = some sd := by rw [← hc]; exact hf
      have hfire : firesChange c (percentageChangeOf sd) a = true := by
        unfold firesChange
        rw [htrig]
        simp [hc]
      obtain ⟨h0, h1⟩ := change_fire_pass fetch st.1 c u a sd hwf.2.1 hfc hfire
      have hnot : a.stockCode ∉ codes := by
        rw [hc]
        exact hnd.1
      obtain ⟨habs1, habs2⟩ := change_absent_cycle fetch codes (cycleStep fetch st c) u a
        (percentageChangeOf sd)
        (by rw [cycleStep_fst]; exact wf_processStock fetch st.1 c hwf) hnot
      refine ⟨?_, ?_⟩
      · rw [habs1, cycleStep_fst]
        exact h0
      · rw [habs2, cycleStep_snd, List.count_append, h1, hcount]
    · have hz : ∀ sd', fetch c = some sd' →
          firesChange c (percentageChangeOf sd') a = false := by
        intro sd' _
        unfold firesChange
        simp [hc]
      have hmem' : a.stockCode ∈ codes := by
        rcases List.mem_cons.mp hmem with h1 | h2
        · exact absurd h1 hc
        · exact h2
      have hwf' : WFState (cycleStep fetch st c).1 := by
        rw [cycleStep_fst]
        exact wf_processStock fetch st.1 c hwf
      have hcount' : (bucketOf (cycleStep fetch st c).1.userChangeAlerts u).count a = 1 := by
        rw [cycleStep_fst, change_count_pass fetch st.1 c u a hwf.2.1 hz]
        exact hcount
      obtain ⟨ih1, ih2⟩ := ih (cycleStep fetch st c) hwf' hnd.2 hmem' hcount'
      refine ⟨ih1, ?_⟩
      rw [ih2, cycleStep_snd, List.count_append,
        change_notif_pass_zero fetch st.1 c u a (percentageChangeOf sd) hz, Nat.add_zero]

end StockBot

namespace StockBot

/-! ### Volume alerts through a cycle -/

theorem volume_count_pass (fetch : String → Option StockData) (s : BotState) (c u : String)
    (a : VolumeAlert) (hwf : NodupKeys s.userVolumeAlerts)
    (hno : ∀ sd, fetch c = some sd →
      firesVolume c (bucketOf s.volumeHistory c) (currentVolumeOf sd) a = false) :
    (bucketOf (processStock fetch s c).1.userVolumeAlerts u).count a =
      (bucketOf s.userVolumeAlerts u).count a := by
  cases hf : fetch c with
  | none => rw [processStock_none fetch s c hf]
  | some sd =>
    rw [processStock_some fetch s c sd hf, processStockWith_volume,
      bucketOf_sweep _ _ _ hwf, count_keep, hno sd hf]
    simp

theorem volume_notif_pass_zero (fetch : String → Option StockData) (s : BotState)
    (c u : String) (a : VolumeAlert) (cv : Rat)
    (hno : ∀ sd, fetch c = some sd →
      firesVolume c (bucketOf s.volumeHistory c) (currentVolumeOf sd) a = false) :
    ((processStock fetch s c).2).count (.volume u a cv) = 0 := by
  cases hf : fetch c with
  | none =>
    rw [processStock_none fetch s c hf]
    rfl
  | some sd =>
    rw [processStock_some fetch s c sd hf, processStockWith_notifs,
      List.count_append, List.count_append]
    have h1 : (notifsOf (firesPrice c (currentPriceOf sd))
        (fun u' a' => Notification.price u' a' (currentPriceOf sd))
        s.userPriceAlerts).count (.volume u a cv) = 0 := by
      apply count_notifsOf_zero
      intro p hp x hx hfx hcn
      exact Notification.noConfusion hcn
    have h2 : (notifsOf (firesChange c (percentageChangeOf sd))
        (fun u' a' => Notification.change u' a' (percentageChangeOf sd))
        s.userChangeAlerts).count (.volume u a cv) = 0 := by
      apply count_notifsOf_zero
      intro p hp x hx hfx hcn
      exact Notification.noConfusion hcn
    have h3 : (notifsOf (firesVolume c (bucketOf s.volumeHistory c) (currentVolumeOf sd))
        (fun u' a' => Notification.volume u' a' (currentVolumeOf sd))
        s.userVolumeAlerts).count (.volume u a cv) = 0 := by
      apply count_notifsOf_zero
      intro p hp x hx hfx hcn
      rw [Notification.volume.injEq] at hcn
      rw [hcn.2.1] at hfx
      rw [hno sd hf] at hfx
      cases hfx
    rw [h1, h2, h3]

theorem volume_fire_pass (fetch : String → Option StockData) (s : BotState) (c u : String)
    (a : VolumeAlert) (sd : StockData) (hwf : NodupKeys s.userVolumeAlerts)
    (hf : fetch c = some sd)
    (hfire : firesVolume c (bucketOf s.volumeHistory c) (currentVolumeOf sd) a = true) :
    (bucketOf (processStock fetch s c).1.userVolumeAlerts u).count a = 0 ∧
    ((processStock fetch s c).2).count (.volume u a (currentVolumeOf sd)) =
      (bucketOf s.userVolumeAlerts u).count a := by
  constructor
  · rw [processStock_some fetch s c sd hf, processStockWith_volume,
      bucketOf_sweep _ _ _ hwf, count_keep, hfire]
    simp
  · rw [processStock_some fetch s c sd hf, processStockWith_notifs,
      List.count_append, List.count_append]
    have hinj : ∀ (u' : String) (a' : VolumeAlert),
        (Notification.volume u' a' (currentVolumeOf sd)
          = Notification.volume u a (currentVolumeOf sd)) ↔ (u' = u ∧ a' = a) := by
      intro u' a'
      rw [Notification.volume.injEq]
      constructor
      · intro h
        exact ⟨h.1, h.2.1⟩
      · intro h
        exact ⟨h.1, h.2, rfl⟩
    rw [count_notifsOf _ _ _ _ _ hwf hinj, hfire]
    have h1 : (notifsOf (firesPrice c (currentPriceOf sd))
        (fun u' a' => Notification.price u' a' (currentPriceOf sd))
        s.userPriceAlerts).count (.volume u a (currentVolumeOf sd)) = 0 := by
      apply count_notifsOf_zero
      intro p hp x hx hfx hcn
      exact Notification.noConfusion hcn
    have h2 : (notifsOf (firesChange c (percentageChangeOf sd))
        (fun u' a' => Notification.change u' a' (percentageChangeOf sd))
        s.userChangeAlerts).count (.volume u a (currentVolumeOf sd)) = 0 := by
      apply count_notifsOf_zero
      intro p hp x hx hfx hcn
      exact Notification.noConfusion hcn
    rw [h1, h2]
    simp

/-- Passes over other identifiers do not touch a volume alert or dispatch
for it. -/
theorem volume_absent_cycle (fetch : String → Option StockData) (codes : List String)
    (st : BotState × List Notification) (u : String) (a : VolumeAlert) (cv : Rat)
    (hwf : WFState st.1) (hnot : a.stockCode ∉ codes) :
    (bucketOf (runCycleFrom fetch codes st).1.userVolumeAlerts u).count a =
      (bucketOf st.1.userVolumeAlerts u).count a ∧
    ((runCycleFrom fetch codes st).2).count (.volume u a cv) =
      st.2.count (.volume u a cv) := by
  induction codes generalizing st with
  | nil => exact ⟨rfl, rfl⟩
  | cons c codes ih =>
    rw [runCycleFrom_cons]
    have hc : a.stockCode ≠ c := fun h => hnot (by rw [h]; simp)
    have hz : ∀ sd, fetch c = some sd →
        firesVolume c (bucketOf st.1.volumeHistory c) (currentVolumeOf sd) a = false := by
      intro sd _
      unfold firesVolume
      simp [hc]
    have hnot' : a.stockCode ∉ codes := fun h => hnot (by simp [h])
    obtain ⟨ih1, ih2⟩ := ih (cycleStep fetch st c)
      (by rw [cycleStep_fst]; exact wf_processStock fetch st.1 c hwf) hnot'
    refine ⟨?_, ?_⟩
    · rw [ih1, cycleStep_fst, volume_count_pass fetch st.1 c u a hwf.2.2 hz]
    · rw [ih2, cycleStep_snd, List.count_append,
        volume_notif_pass_zero fetch st.1 c u a cv hz, Nat.add_zero]

/-- Across a whole cycle (each identifier fetched once), a volume alert whose
trigger fails against the pre-cycle history of its identifier keeps its
multiplicity, and nothing is dispatched for it. -/
theorem volume_frame_cycle (fetch : String → Option StockData) (codes : List String)
    (st : BotState × List Notification) (u : String) (a : VolumeAlert) (cv : Rat)
    (hwf : WFState st.1) (hnd : codes.Nodup)
    (hno : ∀ sd, fetch a.stockCode = some sd →
      volumeTrigger (bucketOf st.1.volumeHistory a.stockCode) (currentVolumeOf sd) a
        = false) :
    (bucketOf (runCycleFrom fetch codes st).1.userVolumeAlerts u).count a =
      (bucketOf st.1.userVolumeAlerts u).count a ∧
    ((runCycleFrom fetch codes st).2).count (.volume u a cv) =
      st.2.count (.volume u a cv) := by
  induction codes generalizing st with
  | nil => exact ⟨rfl, rfl⟩
  | cons c codes ih =>
    rw [List.nodup_cons] at hnd
    rw [runCycleFrom_cons]
    have hz : ∀ sd, fetch c = some sd →
        firesVolume c (bucketOf st.1.volumeHistory c) (currentVolumeOf sd) a = false := by
      intro sd hf
      unfold firesVolume
      by_cases hc : a.stockCode = c
      · rw [← hc] at hf ⊢
        rw [hno sd hf]
        simp
      · simp [hc]
    have hwf' : WFState (cycleStep fetch st c).1 := by
      rw [cycleStep_fst]
      exact wf_processStock fetch st.1 c hwf
    by_cases hc : a.stockCode = c
    · have hnot : a.stockCode ∉ codes := by
        rw [hc]
        exact hnd.1
      obtain ⟨habs1, habs2⟩ := volume_absent_cycle fetch codes (cycleStep fetch st c) u a
        cv hwf' hnot
      refine ⟨?_, ?_⟩
      · rw [habs1, cycleStep_fst, volume_count_pass fetch st.1 c u a hwf.2.2 hz]
      · rw [habs2, cycleStep_snd, List.count_append,
          volume_notif_pass_zero fetch st.1 c u a cv hz, Nat.add_zero]
    · have hno' : ∀ sd, fetch a.stockCode = some sd →
          volumeTrigger (bucketOf (cycleStep fetch st c).1.volumeHistory a.stockCode)
            (currentVolumeOf sd) a = false := by
        intro sd hf
        rw [cycleStep_fst, hist_processStock_ne fetch st.1 c a.stockCode hc]
        exact hno sd hf
      obtain ⟨ih1, ih2⟩ := ih (cycleStep fetch st c) hwf' hnd.2 hno'
      refine ⟨?_, ?_⟩
      · rw [ih1, cycleStep_fst, volume_count_pass fetch st.1 c u a hwf.2.2 hz]
      · rw [ih2, cycleStep_snd, List.count_append,
          volume_notif_pass_zero fetch st.1 c u a cv hz, Nat.add_zero]

/-- Across a whole cycle, a volume alert (held once) whose trigger holds
against the pre-cycle history of its identifier is removed, and exactly one
notification is dispatched for it. -/
theorem volume_fire_cycle (fetch : String → Option StockData) (codes : List String)
    (st : BotState × List Notification) (u : String) (a : VolumeAlert) (sd : StockData)
    (hwf : WFState st.1) (hnd : codes.Nodup) (hmem : a.stockCode ∈ codes)
    (hf : fetch a.stockCode = some sd)
    (htrig : volumeTrigger (bucketOf st.1.volumeHistory a.stockCode)
      (currentVolumeOf sd) a = true)
    (hcount : (bucketOf st.1.userVolumeAlerts u).count a = 1) :
    (bucketOf (runCycleFrom fetch codes st).1.userVolumeAlerts u).count a = 0 ∧
    ((runCycleFrom fetch codes st).2).count (.volume u a (currentVolumeOf sd)) =
      st.2.count (.volume u a (currentVolumeOf sd)) + 1 := by
  induction codes generalizing st with
  | nil => cases hmem
  | cons c codes ih =>
    rw [List.nodup_cons] at hnd
    rw [runCycleFrom_cons]
    by_cases hc : a.stockCode = c
    · have hfc : fetch c = some sd := by rw [← hc]; exact hf
      have hfire : firesVolume c (bucketOf st.1.volumeHistory c)
          (currentVolumeOf sd) a = true := by
        unfold firesVolume
        rw [← hc, htrig]
        simp [hc]
      obtain ⟨h0, h1⟩ := volume_fire_pass fetch st.1 c u a sd hwf.2.2 hfc hfire
      have hnot : a.stockCode ∉ codes := by
        rw [hc]
        exact hnd.1
      obtain ⟨habs1, habs2⟩ := volume_absent_cycle fetch codes (cycleStep fetch st c) u a
        (currentVolumeOf sd)
        (by rw [cycleStep_fst]; exact wf_processStock fetch st.1 c hwf) hnot
      refine ⟨?_, ?_⟩
      · rw [habs1, cycleStep_fst]
        exact h0
      · rw [habs2, cycleStep_snd, List.count_append, h1, hcount]
    · have hz : ∀ sd', fetch c = some sd' →
          firesVolume c (bucketOf st.1.volumeHistory c) (currentVolumeOf sd') a
            = false := by
        intro sd' _
        unfold firesVolume
        simp [hc]
      have hmem' : a.stockCode ∈ codes := by
        rcases List.mem_cons.mp hmem with h1 | h2
        · exact absurd h1 hc
        · exact h2
      have hwf' : WFState (cycleStep fetch st c).1 := by
        rw [cycleStep_fst]
        exact wf_processStock fetch st.1 c hwf
      have htrig' : volumeTrigger
          (bucketOf (cycleStep fetch st c).1.volumeHistory a.stockCode)
          (currentVolumeOf sd) a = true := by
        rw [cycleStep_fst, hist_processStock_ne fetch st.1 c a.stockCode hc]
        exact htrig
      have hcount' : (bucketOf (cycleStep fetch st c).1.userVolumeAlerts u).count a = 1 := by
        rw [cycleStep_fst, volume_count_pass fetch st.1 c u a hwf.2.2 hz]
        exact hcount
      obtain ⟨ih1, ih2⟩ := ih (cycleStep fetch st c) hwf' hnd.2 hmem' htrig' hcount'
      refine ⟨ih1, ?_⟩
      rw [ih2, cycleStep_snd, List.count_append,
        volume_notif_pass_zero fetch st.1 c u a (currentVolumeOf sd) hz, Nat.add_zero]

end StockBot

namespace StockBot

/-! ### The fetch set -/

theorem mem_bucketOf (m : List (String × List α)) (u : String) (a : α)
    (h : a ∈ bucketOf m u) : ∃ l, (u, l) ∈ m ∧ a ∈ l := by
  induction m with
  | nil => cases h
  | cons p m ih =>
    rw [bucketOf_cons] at h
    by_cases hp : p.1 = u
    · rw [if_pos hp] at h
      refine ⟨p.2, ?_, h⟩
      rw [← hp]
      simp
    · rw [if_neg hp] at h
      obtain ⟨l, hl, hal⟩ := ih h
      exact ⟨l, by simp [hl], hal⟩

theorem mem_foldl_insertDistinct (l : List String) (acc : List String) (x : String)
    (h : x ∈ acc ∨ x ∈ l) : x ∈ l.foldl insertDistinct acc := by
  induction l generalizing acc with
  | nil =>
    rcases h with h1 | h2
    · exact h1
    · cases h2
  | cons c l ih =>
    rw [List.foldl_cons]
    apply ih
    rcases h with h1 | h2
    · left
      unfold insertDistinct
      by_cases hc : c ∈ acc
      · rw [if_pos hc]
        exact h1
      · rw [if_neg hc]
        simp [h1]
    · rcases List.mem_cons.mp h2 with h3 | h4
      · left
        unfold insertDistinct
        by_cases hc : c ∈ acc
        · rw [if_pos hc, h3]
          exact hc
        · rw [if_neg hc, h3]
          simp
      · right
        exact h4

theorem nodup_foldl_insertDistinct (l : List String) (acc : List String)
    (h : acc.Nodup) : (l.foldl insertDistinct acc).Nodup := by
  induction l generalizing acc with
  | nil => exact h
  | cons c l ih =>
    rw [List.foldl_cons]
    apply ih
    unfold insertDistinct
    by_cases hc : c ∈ acc
    · rw [if_pos hc]
      exact h
    · rw [if_neg hc]
      rw [List.nodup_append]
      exact ⟨h, List.nodup_singleton c, by simpa using hc⟩

theorem collectCodes_nodup (s : BotState) : (collectCodes s).Nodup :=
  nodup_foldl_insertDistinct _ _ List.nodup_nil

theorem mem_collectCodes_price (s : BotState) (u : String) (a : PriceAlert)
    (h : a ∈ bucketOf s.userPriceAlerts u) : a.stockCode ∈ collectCodes s := by
  obtain ⟨l, hl, hal⟩ := mem_bucketOf _ _ _ h
  apply mem_foldl_insertDistinct
  right
  apply List.mem_append_left
  apply List.mem_append_left
  rw [List.mem_flatMap]
  exact ⟨(u, l), hl, by simp; exact ⟨a, hal, rfl⟩⟩

theorem mem_collectCodes_volume (s : BotState) (u : String) (a : VolumeAlert)
    (h : a ∈ bucketOf s.userVolumeAlerts u) : a.stockCode ∈ collectCodes s := by
  obtain ⟨l, hl, hal⟩ := mem_bucketOf _ _ _ h
  apply mem_foldl_insertDistinct
  right
  apply List.mem_append_left
  apply List.mem_append_right
  rw [List.mem_flatMap]
  exact ⟨(u, l), hl, by simp; exact ⟨a, hal, rfl⟩⟩

theorem mem_collectCodes_change (s : BotState) (u : String) (a : ChangeAlert)
    (h : a ∈ bucketOf s.userChangeAlerts u) : a.stockCode ∈ collectCodes s := by
  obtain ⟨l, hl, hal⟩ := mem_bucketOf _ _ _ h
  apply mem_foldl_insertDistinct
  right
  apply List.mem_append_right
  rw [List.mem_flatMap]
  exact ⟨(u, l), hl, by simp; exact ⟨a, hal, rfl⟩⟩

/-! ### Where notifications come from -/

theorem mem_notifsOf (fires : α → Bool) (mk : String → α → Notification)
    (m : List (String × List α)) (n : Notification) (h : n ∈ notifsOf fires mk m) :
    ∃ p ∈ m, ∃ a ∈ p.2, fires a = true ∧ n = mk p.1 a := by
  induction m with
  | nil => cases h
  | cons p m ih =>
    rw [notifsOf_cons] at h
    rcases List.mem_append.mp h with h1 | h2
    · rw [List.mem_map] at h1
      obtain ⟨a, ha, hmk⟩ := h1
      rw [List.mem_filter] at ha
      exact ⟨p, by simp, a, ha.1, ha.2, hmk.symm⟩
    · obtain ⟨q, hq, a, hqa, hfa, hn⟩ := ih h2
      exact ⟨q, by simp [hq], a, hqa, hfa, hn⟩

/-- Every notification dispatched by one pass concerns the processed stock
code, and only a successfully fetched one. -/
theorem notif_processStock_origin (fetch : String → Option StockData) (s : BotState)
    (c : String) (n : Notification) (h : n ∈ (processStock fetch s c).2) :
    n.stockCodeOf = c ∧ ∃ sd, fetch c = some sd := by
  cases hf : fetch c with
  | none =>
    rw [processStock_none fetch s c hf] at h
    cases h
  | some sd =>
    rw [processStock_some fetch s c sd hf, processStockWith_notifs] at h
    refine ⟨?_, sd, rfl⟩
    rcases List.mem_append.mp h with h12 | h3
    · rcases List.mem_append.mp h12 with h1 | h2
      · obtain ⟨p, _, a, _, hfa, hn⟩ := mem_notifsOf _ _ _ _ h1
        unfold firesPrice at hfa
        rw [Bool.and_eq_true, decide_eq_true_eq] at hfa
        rw [hn]
        exact hfa.1
      · obtain ⟨p, _, a, _, hfa, hn⟩ := mem_notifsOf _ _ _ _ h2
        unfold firesChange at hfa
        rw [Bool.and_eq_true, decide_eq_true_eq] at hfa
        rw [hn]
        exact hfa.1
    · obtain ⟨p, _, a, _, hfa, hn⟩ := mem_notifsOf _ _ _ _ h3
      unfold firesVolume at hfa
      rw [Bool.and_eq_true, decide_eq_true_eq] at hfa
      rw [hn]
      exact hfa.1

theorem notif_runCycle_origin (fetch : String → Option StockData) (codes : List String)
    (st : BotState × List Notification) (n : Notification)
    (h : n ∈ (runCycleFrom fetch codes st).2) :
    n ∈ st.2 ∨ ∃ c ∈ codes, n.stockCodeOf = c ∧ ∃ sd, fetch c = some sd := by
  induction codes generalizing st with
  | nil => exact Or.inl h
  | cons c codes ih =>
    rw [runCycleFrom_cons] at h
    rcases ih (cycleStep fetch st c) h with h1 | h2
    · rw [cycleStep_snd] at h1
      rcases List.mem_append.mp h1 with ha | hb
      · exact Or.inl ha
      · obtain ⟨hcode, hsd⟩ := notif_processStock_origin fetch st.1 c n hb
        exact Or.inr ⟨c, by simp, hcode, hsd⟩
    · obtain ⟨d, hd, hrest⟩ := h2
      exact Or.inr ⟨d, by simp [hd], hrest⟩

/-! ### Pruning and the history bound through a cycle -/

/-- All three alert maps pruned. -/
def PrunedState (s : BotState) : Prop :=
  Pruned s.userPriceAlerts ∧ Pruned s.userChangeAlerts ∧ Pruned s.userVolumeAlerts

theorem pruned_processStock (fetch : String → Option StockData) (s : BotState)
    (c : String) (h : PrunedState s) : PrunedState (processStock fetch s c).1 := by
  cases hf : fetch c with
  | none =>
    rw [processStock_none fetch s c hf]
    exact h
  | some sd =>
    rw [processStock_some fetch s c sd hf]
    exact ⟨pruned_sweep _ _, pruned_sweep _ _, pruned_sweep _ _⟩

theorem pruned_runCycle (fetch : String → Option StockData) (codes : List String)
    (st : BotState × List Notification) (h : PrunedState st.1) :
    PrunedState (runCycleFrom fetch codes st).1 := by
  induction codes generalizing st with
  | nil => exact h
  | cons c codes ih =>
    rw [runCycleFrom_cons]
    apply ih
    rw [cycleStep_fst]
    exact pruned_processStock fetch st.1 c h

theorem histlen_processStock (fetch : String → Option StockData) (s : BotState)
    (c c0 : String) (h : (bucketOf s.volumeHistory c0).length ≤ VOLUME_HISTORY_LIMIT) :
    (bucketOf (processStock fetch s c).1.volumeHistory c0).length
      ≤ VOLUME_HISTORY_LIMIT := by
  cases hf : fetch c with
  | none =>
    rw [processStock_none fetch s c hf]
    exact h
  | some sd =>
    by_cases hc : c0 = c
    · rw [← hc] at hf
      rw [← hc, hist_processStock_self fetch s c0 sd hf]
      exact length_appendHistory_le _ _
    · rw [hist_processStock_ne fetch s c c0 hc]
      exact h

theorem histlen_runCycle (fetch : String → Option StockData) (codes : List String)
    (st : BotState × List Notification) (c0 : String)
    (h : (bucketOf st.1.volumeHistory c0).length ≤ VOLUME_HISTORY_LIMIT) :
    (bucketOf (runCycleFrom fetch codes st).1.volumeHistory c0).length
      ≤ VOLUME_HISTORY_LIMIT := by
  induction codes generalizing st with
  | nil => exact h
  | cons c codes ih =>
    rw [runCycleFrom_cons]
    apply ih
    rw [cycleStep_fst]
    exact histlen_processStock fetch st.1 c c0 h

end StockBot

namespace StockBot

/-! ### Trigger characterizations and upsert pruning -/

theorem volumeTrigger_iff (history : List Rat) (cv : Rat) (a : VolumeAlert) :
    volumeTrigger history cv a = true ↔
      (VOLUME_MIN_SAMPLES ≤ history.length ∧ 0 < averageOf history ∧
        averageOf history * a.multiplier ≤ cv) := by
  unfold volumeTrigger
  simp [and_assoc]

theorem changeTrigger_iff (pc : Rat) (a : ChangeAlert) :
    changeTrigger pc a = true ↔ a.changePercent ≤ |pc| := by
  unfold changeTrigger
  simp

theorem priceKeyMatches_iff (code : String) (dir : Direction) (a : PriceAlert) :
    priceKeyMatches code dir a = true ↔ (a.stockCode = code ∧ a.direction = dir) := by
  unfold priceKeyMatches
  simp

theorem priceBucketUpsert_ne_nil (bucket : List PriceAlert) (code : String)
    (dir : Direction) (price : Rat) : priceBucketUpsert bucket code dir price ≠ [] := by
  unfold priceBucketUpsert
  by_cases h : bucket.any (priceKeyMatches code dir) = true
  · rw [if_pos h]
    obtain ⟨x, hx, _⟩ := List.any_eq_true.mp h
    cases bucket with
    | nil => cases hx
    | cons a l =>
      rw [setPriceTargetAtFirst_cons]
      by_cases hc : priceKeyMatches code dir a = true
      · rw [if_pos hc]
        simp
      · rw [if_neg hc]
        simp
  · rw [if_neg h]
    simp

theorem changeBucketUpsert_ne_nil (bucket : List ChangeAlert) (code : String)
    (pct : Rat) : changeBucketUpsert bucket code pct ≠ [] := by
  unfold changeBucketUpsert
  by_cases h : bucket.any (fun a => decide (a.stockCode = code)) = true
  · rw [if_pos h]
    obtain ⟨x, hx, _⟩ := List.any_eq_true.mp h
    cases bucket with
    | nil => cases hx
    | cons a l =>
      rw [setChangePercentAtFirst]
      by_cases hc : a.stockCode = code
      · rw [if_pos hc]
        simp
      · rw [if_neg hc]
        simp
  · rw [if_neg h]
    simp

theorem volumeBucketUpsert_ne_nil (bucket : List VolumeAlert) (code : String)
    (mult : Rat) : volumeBucketUpsert bucket code mult ≠ [] := by
  unfold volumeBucketUpsert
  by_cases h : bucket.any (fun a => decide (a.stockCode = code)) = true
  · rw [if_pos h]
    obtain ⟨x, hx, _⟩ := List.any_eq_true.mp h
    cases bucket with
    | nil => cases hx
    | cons a l =>
      rw [setMultiplierAtFirst]
      by_cases hc : a.stockCode = code
      · rw [if_pos hc]
        simp
      · rw [if_neg hc]
        simp
  · rw [if_neg h]
    simp

theorem pruned_upsertPriceAlert (m : List (String × List PriceAlert)) (u code : String)
    (dir : Direction) (price : Rat) (hm : Pruned m) :
    Pruned (upsertPriceAlert m u code dir price) :=
  pruned_mapSet _ _ _ hm (priceBucketUpsert_ne_nil _ _ _ _)

theorem pruned_upsertChangeAlert (m : List (String × List ChangeAlert)) (u code : String)
    (pct : Rat) (hm : Pruned m) : Pruned (upsertChangeAlert m u code pct) :=
  pruned_mapSet _ _ _ hm (changeBucketUpsert_ne_nil _ _ _)

theorem pruned_upsertVolumeAlert (m : List (String × List VolumeAlert)) (u code : String)
    (mult : Rat) (hm : Pruned m) : Pruned (upsertVolumeAlert m u code mult) := by
  unfold upsertVolumeAlert
  by_cases h : mult ≤ 1
  · rw [if_pos h]
    exact hm
  · rw [if_neg h]
    exact pruned_mapSet _ _ _ hm (volumeBucketUpsert_ne_nil _ _ _)

end StockBot

namespace StockBot

/-- Claim C1: at-most-once firing.  For every alert (price, change, or
volume) present in the registry before a cycle (held once by its user, as
the dedup-keyed upserts guarantee) whose trigger condition holds for the
snapshot fetched during that cycle, after the cycle the alert is absent from
the registry and exactly one notification was dispatched for it.  Removal
does not depend on delivery: the model logs the dispatch and never consults
a delivery result (the source fires `pushMessage` and only attaches a
`.catch` logger). -/
theorem C1_at_most_once_firing (fetch : String → Option StockData) (s : BotState)
    (hwf : WFState s) :
    (∀ (u : String) (a : PriceAlert) (sd : StockData),
      fetch a.stockCode = some sd →
      priceTrigger (currentPriceOf sd) a = true →
      (bucketOf s.userPriceAlerts u).count a = 1 →
      (bucketOf (checkAlerts fetch s).1.userPriceAlerts u).count a = 0 ∧
      ((checkAlerts fetch s).2).count (.price u a (currentPriceOf sd)) = 1)
    ∧ (∀ (u : String) (a : ChangeAlert) (sd : StockData),
      fetch a.stockCode = some sd →
      changeTrigger (percentageChangeOf sd) a = true →
      (bucketOf s.userChangeAlerts u).count a = 1 →
      (bucketOf (checkAlerts fetch s).1.userChangeAlerts u).count a = 0 ∧
      ((checkAlerts fetch s).2).count (.change u a (percentageChangeOf sd)) = 1)
    ∧ (∀ (u : String) (a : VolumeAlert) (sd : StockData),
      fetch a.stockCode = some sd →
      volumeTrigger (bucketOf s.volumeHistory a.stockCode) (currentVolumeOf sd) a = true →
      (bucketOf s.userVolumeAlerts u).count a = 1 →
      (bucketOf (checkAlerts fetch s).1.userVolumeAlerts u).count a = 0 ∧
      ((checkAlerts fetch s).2).count (.volume u a (currentVolumeOf sd)) = 1) := by
  refine ⟨?_, ?_, ?_⟩
  · intro u a sd hf htrig hcount
    have hmem : a.stockCode ∈ collectCodes s :=
      mem_collectCodes_price s u a
        (List.count_pos_iff.mp (by rw [hcount]; exact Nat.one_pos))
    have h := price_fire_cycle fetch (collectCodes s) (s, []) u a sd hwf
      (collectCodes_nodup s) hmem hf htrig hcount
    exact ⟨h.1, h.2⟩
  · intro u a sd hf htrig hcount
    have hmem : a.stockCode ∈ collectCodes s :=
      mem_collectCodes_change s u a
        (List.count_pos_iff.mp (by rw [hcount]; exact Nat.one_pos))
    have h := change_fire_cycle fetch (collectCodes s) (s, []) u a sd hwf
      (collectCodes_nodup s) hmem hf htrig hcount
    exact ⟨h.1, h.2⟩
  · intro u a sd hf htrig hcount
    have hmem : a.stockCode ∈ collectCodes s :=
      mem_collectCodes_volume s u a
        (List.count_pos_iff.mp (by rw [hcount]; exact Nat.one_pos))
    have h := volume_fire_cycle fetch (collectCodes s) (s, []) u a sd hwf
      (collectCodes_nodup s) hmem hf htrig hcount
    exact ⟨h.1, h.2⟩

end StockBot

namespace StockBot

/-- Claim C7: non-firing retention.  Every alert whose trigger condition does
not hold during the cycle — in particular every alert on an identifier other
than the fetched ones, or whose identifier's fetch failed — is still present
afterwards with the same multiplicity, hence with all of its fields
(identifier, direction, targetPrice, changePercent, multiplier) unmodified
(alerts are compared as whole values). -/
theorem C7_non_firing_retention (fetch : String → Option StockData) (s : BotState)
    (hwf : WFState s) :
    (∀ (u : String) (a : PriceAlert),
      (∀ sd, fetch a.stockCode = some sd → priceTrigger (currentPriceOf sd) a = false) →
      (bucketOf (checkAlerts fetch s).1.userPriceAlerts u).count a =
        (bucketOf s.userPriceAlerts u).count a)
    ∧ (∀ (u : String) (a : ChangeAlert),
      (∀ sd, fetch a.stockCode = some sd →
        changeTrigger (percentageChangeOf sd) a = false) →
      (bucketOf (checkAlerts fetch s).1.userChangeAlerts u).count a =
        (bucketOf s.userChangeAlerts u).count a)
    ∧ (∀ (u : String) (a : VolumeAlert),
      (∀ sd, fetch a.stockCode = some sd →
        volumeTrigger (bucketOf s.volumeHistory a.stockCode) (currentVolumeOf sd) a
          = false) →
      (bucketOf (checkAlerts fetch s).1.userVolumeAlerts u).count a =
        (bucketOf s.userVolumeAlerts u).count a) := by
  refine ⟨?_, ?_, ?_⟩
  · intro u a hno
    exact (price_frame_cycle fetch (collectCodes s) (s, []) u a 0 hwf hno).1
  · intro u a hno
    exact (change_frame_cycle fetch (collectCodes s) (s, []) u a 0 hwf hno).1
  · intro u a hno
    exact (volume_frame_cycle fetch (collectCodes s) (s, []) u a 0 hwf
      (collectCodes_nodup s) hno).1

/-- Claim C3: volume trigger evaluation.  A VolumeAlert (held once) on a
fetched identifier fires in the cycle — is removed and dispatched exactly
once — precisely when `n ≥ 3 ∧ avg > 0 ∧ currentVolume ≥ avg × multiplier`,
where `n` and `avg` are the count and arithmetic mean of the history window
before the current sample is appended; with fewer than 3 prior samples it
never fires; and the current sample is appended to the window afterwards in
either case. -/
theorem C3_volume_trigger (fetch : String → Option StockData) (s : BotState)
    (u : String) (a : VolumeAlert) (sd : StockData) (hwf : WFState s)
    (hf : fetch a.stockCode = some sd)
    (hcount : (bucketOf s.userVolumeAlerts u).count a = 1) :
    ((VOLUME_MIN_SAMPLES ≤ (bucketOf s.volumeHistory a.stockCode).length ∧
      0 < averageOf (bucketOf s.volumeHistory a.stockCode) ∧
      averageOf (bucketOf s.volumeHistory a.stockCode) * a.multiplier
        ≤ currentVolumeOf sd) →
      (bucketOf (checkAlerts fetch s).1.userVolumeAlerts u).count a = 0 ∧
      ((checkAlerts fetch s).2).count (.volume u a (currentVolumeOf sd)) = 1)
    ∧ (¬ (VOLUME_MIN_SAMPLES ≤ (bucketOf s.volumeHistory a.stockCode).length ∧
      0 < averageOf (bucketOf s.volumeHistory a.stockCode) ∧
      averageOf (bucketOf s.volumeHistory a.stockCode) * a.multiplier
        ≤ currentVolumeOf sd) →
      (bucketOf (checkAlerts fetch s).1.userVolumeAlerts u).count a = 1 ∧
      ((checkAlerts fetch s).2).count (.volume u a (currentVolumeOf sd)) = 0)
    ∧ ((bucketOf s.volumeHistory a.stockCode).length < VOLUME_MIN_SAMPLES →
      (bucketOf (checkAlerts fetch s).1.userVolumeAlerts u).count a = 1)
    ∧ bucketOf (checkAlerts fetch s).1.volumeHistory a.stockCode =
        appendHistory (bucketOf s.volumeHistory a.stockCode) (currentVolumeOf sd) := by
  have hmem : a.stockCode ∈ collectCodes s :=
    mem_collectCodes_volume s u a
      (List.count_pos_iff.mp (by rw [hcount]; exact Nat.one_pos))
  have hnofire : ∀ hP : ¬ (VOLUME_MIN_SAMPLES ≤ (bucketOf s.volumeHistory a.stockCode).length ∧
      0 < averageOf (bucketOf s.volumeHistory a.stockCode) ∧
      averageOf (bucketOf s.volumeHistory a.stockCode) * a.multiplier
        ≤ currentVolumeOf sd),
      (bucketOf (checkAlerts fetch s).1.userVolumeAlerts u).count a = 1 ∧
      ((checkAlerts fetch s).2).count (.volume u a (currentVolumeOf sd)) = 0 := by
    intro hP
    have hno : ∀ sd', fetch a.stockCode = some sd' →
        volumeTrigger (bucketOf s.volumeHistory a.stockCode) (currentVolumeOf sd') a
          = false := by
      intro sd' hf'
      rw [hf] at hf'
      injection hf' with he
      rw [← he]
      exact Bool.eq_false_iff.mpr (fun hc => hP ((volumeTrigger_iff _ _ _).mp hc))
    have h := volume_frame_cycle fetch (collectCodes s) (s, []) u a
      (currentVolumeOf sd) hwf (collectCodes_nodup s) hno
    exact ⟨h.1.trans hcount, h.2⟩
  refine ⟨?_, hnofire, ?_, ?_⟩
  · intro hP
    have htrig := (volumeTrigger_iff _ _ a).mpr hP
    exact volume_fire_cycle fetch (collectCodes s) (s, []) u a sd hwf
      (collectCodes_nodup s) hmem hf htrig hcount
  · intro hlt
    exact (hnofire (fun hP => by omega)).1
  · exact hist_runCycle_mem fetch (collectCodes s) (s, []) a.stockCode sd
      (collectCodes_nodup s) hmem hf

end StockBot

namespace StockBot

/-- Claim C8: change trigger.  A ChangeAlert (held once) on a fetched
identifier fires — is removed and dispatched exactly once — precisely when
`|percentChange| ≥ changePercentThreshold`, where `percentChange` is
`(currentPrice − previousClose) / previousClose × 100` whenever
`previousClose ≠ 0`, `previousClose` falls back to `currentPrice` when the
`y` field is absent (making the derived change 0), and `percentChange` is 0
when `previousClose` is 0. -/
theorem C8_change_trigger (fetch : String → Option StockData) (s : BotState)
    (u : String) (a : ChangeAlert) (sd : StockData) (hwf : WFState s)
    (hf : fetch a.stockCode = some sd)
    (hcount : (bucketOf s.userChangeAlerts u).count a = 1) :
    (a.changePercent ≤ |percentageChangeOf sd| →
      (bucketOf (checkAlerts fetch s).1.userChangeAlerts u).count a = 0 ∧
      ((checkAlerts fetch s).2).count (.change u a (percentageChangeOf sd)) = 1)
    ∧ (¬ a.changePercent ≤ |percentageChangeOf sd| →
      (bucketOf (checkAlerts fetch s).1.userChangeAlerts u).count a = 1 ∧
      ((checkAlerts fetch s).2).count (.change u a (percentageChangeOf sd)) = 0)
    ∧ (previousCloseOf sd ≠ 0 →
      percentageChangeOf sd =
        (currentPriceOf sd - previousCloseOf sd) / previousCloseOf sd * 100)
    ∧ (sd.y = none →
      previousCloseOf sd = currentPriceOf sd ∧ percentageChangeOf sd = 0)
    ∧ (previousCloseOf sd = 0 → percentageChangeOf sd = 0) := by
  have hmem : a.stockCode ∈ collectCodes s :=
    mem_collectCodes_change s u a
      (List.count_pos_iff.mp (by rw [hcount]; exact Nat.one_pos))
  refine ⟨?_, ?_, ?_, ?_, ?_⟩
  · intro hP
    have htrig := (changeTrigger_iff (percentageChangeOf sd) a).mpr hP
    exact change_fire_cycle fetch (collectCodes s) (s, []) u a sd hwf
      (collectCodes_nodup s) hmem hf htrig hcount
  · intro hP
    have hno : ∀ sd', fetch a.stockCode = some sd' →
        changeTrigger (percentageChangeOf sd') a = false := by
      intro sd' hf'
      rw [hf] at hf'
      injection hf' with he
      rw [← he]
      exact Bool.eq_false_iff.mpr (fun hc => hP ((changeTrigger_iff _ _).mp hc))
    have h := change_frame_cycle fetch (collectCodes s) (s, []) u a
      (percentageChangeOf sd) hwf hno
    exact ⟨h.1.trans hcount, h.2⟩
  · intro hne
    unfold percentageChangeOf priceChangeOf
    rw [if_pos hne]
  · intro hy
    have hpc : previousCloseOf sd = currentPriceOf sd := by
      unfold previousCloseOf jsParseOr
      rw [hy]
    refine ⟨hpc, ?_⟩
    unfold percentageChangeOf
    by_cases h0 : previousCloseOf sd ≠ 0
    · rw [if_pos h0]
      unfold priceChangeOf
      rw [hpc]
      rw [sub_self, zero_div, zero_mul]
    · rw [if_neg h0]
  · intro h0
    unfold percentageChangeOf
    rw [if_neg (by rw [h0]; simp)]

/-- Claim C10: when the fetched price field does not parse to a nonzero
number (`parseFloat(z) || 0` yields 0, e.g. the feed reports `"-"`), the
evaluator treats currentPrice as 0; consequently in that cycle every
BELOW-direction PriceAlert on that identifier (all creatable target prices
are nonnegative, the command grammar only accepts `\d+(\.\d+)?`) triggers
and is removed with exactly one notification, while no ABOVE-direction
PriceAlert with a positive targetPrice triggers. -/
theorem C10_unparsed_price_below_fires (fetch : String → Option StockData) (s : BotState)
    (u : String) (sd : StockData) (hwf : WFState s)
    (hz : sd.z = none ∨ sd.z = some 0) :
    currentPriceOf sd = 0
    ∧ (∀ a : PriceAlert, a.direction = Direction.BELOW → 0 ≤ a.targetPrice →
        fetch a.stockCode = some sd →
        (bucketOf s.userPriceAlerts u).count a = 1 →
        (bucketOf (checkAlerts fetch s).1.userPriceAlerts u).count a = 0 ∧
        ((checkAlerts fetch s).2).count (.price u a (currentPriceOf sd)) = 1)
    ∧ (∀ a : PriceAlert, a.direction = Direction.ABOVE → 0 < a.targetPrice →
        fetch a.stockCode = some sd →
        (bucketOf (checkAlerts fetch s).1.userPriceAlerts u).count a =
          (bucketOf s.userPriceAlerts u).count a) := by
  have hcp : currentPriceOf sd = 0 := by
    unfold currentPriceOf jsParseOr
    rcases hz with h | h
    · rw [h]
    · rw [h]
      simp
  refine ⟨hcp, ?_, ?_⟩
  · intro a hdir htp hf hcount
    have hmem : a.stockCode ∈ collectCodes s :=
      mem_collectCodes_price s u a
        (List.count_pos_iff.mp (by rw [hcount]; exact Nat.one_pos))
    have htrig : priceTrigger (currentPriceOf sd) a = true := by
      unfold priceTrigger
      rw [hcp, hdir]
      simp [htp]
    exact price_fire_cycle fetch (collectCodes s) (s, []) u a sd hwf
      (collectCodes_nodup s) hmem hf htrig hcount
  · intro a hdir htp hf
    have hno : ∀ sd', fetch a.stockCode = some sd' →
        priceTrigger (currentPriceOf sd') a = false := by
      intro sd' hf'
      rw [hf] at hf'
      injection hf' with he
      rw [← he]
      unfold priceTrigger
      rw [hcp, hdir]
      simp
      exact htp
    exact (price_frame_cycle fetch (collectCodes s) (s, []) u a 0 hwf hno).1

end StockBot

namespace StockBot

/-- Claim C5: fail-soft fetch.  When an identifier's fetch fails or returns
not-found (both modelled by the oracle answering `none`), that identifier is
skipped for the cycle: none of its price/change/volume alerts change
multiplicity, its volume history is untouched, and no notification
concerning it is dispatched — while alerts on every other fetched identifier
are still processed (in particular a held-once price alert whose trigger
holds still fires exactly once). -/
theorem C5_fail_soft_fetch (fetch : String → Option StockData) (s : BotState)
    (code0 : String) (hwf : WFState s) (hf0 : fetch code0 = none) :
    (∀ (u : String) (a : PriceAlert), a.stockCode = code0 →
      (bucketOf (checkAlerts fetch s).1.userPriceAlerts u).count a =
        (bucketOf s.userPriceAlerts u).count a)
    ∧ (∀ (u : String) (a : ChangeAlert), a.stockCode = code0 →
      (bucketOf (checkAlerts fetch s).1.userChangeAlerts u).count a =
        (bucketOf s.userChangeAlerts u).count a)
    ∧ (∀ (u : String) (a : VolumeAlert), a.stockCode = code0 →
      (bucketOf (checkAlerts fetch s).1.userVolumeAlerts u).count a =
        (bucketOf s.userVolumeAlerts u).count a)
    ∧ bucketOf (checkAlerts fetch s).1.volumeHistory code0 =
        bucketOf s.volumeHistory code0
    ∧ (∀ n ∈ (checkAlerts fetch s).2, n.stockCodeOf ≠ code0)
    ∧ (∀ (u : String) (a : PriceAlert) (sd : StockData), a.stockCode ≠ code0 →
        fetch a.stockCode = some sd →
        priceTrigger (currentPriceOf sd) a = true →
        (bucketOf s.userPriceAlerts u).count a = 1 →
        (bucketOf (checkAlerts fetch s).1.userPriceAlerts u).count a = 0 ∧
        ((checkAlerts fetch s).2).count (.price u a (currentPriceOf sd)) = 1) := by
  refine ⟨?_, ?_, ?_, ?_, ?_, ?_⟩
  · intro u a ha
    have hno : ∀ sd, fetch a.stockCode = some sd →
        priceTrigger (currentPriceOf sd) a = false := by
      intro sd hf
      rw [ha, hf0] at hf
      cases hf
    exact (price_frame_cycle fetch (collectCodes s) (s, []) u a 0 hwf hno).1
  · intro u a ha
    have hno : ∀ sd, fetch a.stockCode = some sd →
        changeTrigger (percentageChangeOf sd) a = false := by
      intro sd hf
      rw [ha, hf0] at hf
      cases hf
    exact (change_frame_cycle fetch (collectCodes s) (s, []) u a 0 hwf hno).1
  · intro u a ha
    have hno : ∀ sd, fetch a.stockCode = some sd →
        volumeTrigger (bucketOf s.volumeHistory a.stockCode) (currentVolumeOf sd) a
          = false := by
      intro sd hf
      rw [ha, hf0] at hf
      cases hf
    exact (volume_frame_cycle fetch (collectCodes s) (s, []) u a 0 hwf
      (collectCodes_nodup s) hno).1
  · exact hist_runCycle_skip fetch (collectCodes s) (s, []) code0
      (fun _ _ _ => hf0)
  · intro n hn hcode
    rcases notif_runCycle_origin fetch (collectCodes s) (s, []) n hn with h1 | h2
    · cases h1
    · obtain ⟨c, _, hc, sd, hsd⟩ := h2
      rw [hcode] at hc
      rw [← hc, hf0] at hsd
      cases hsd
  · intro u a sd _ hf htrig hcount
    have hmem : a.stockCode ∈ collectCodes s :=
      mem_collectCodes_price s u a
        (List.count_pos_iff.mp (by rw [hcount]; exact Nat.one_pos))
    exact price_fire_cycle fetch (collectCodes s) (s, []) u a sd hwf
      (collectCodes_nodup s) hmem hf htrig hcount

/-- Claim C4: history bound invariant.  Feeding any sequence of samples
through the source's append-then-prune step keeps at most 20 samples and
retains exactly the most recent ones in arrival order (the window is the
suffix of the sample sequence), and an evaluation cycle preserves the
≤ 20 bound of every identifier's stored window. -/
theorem C4_history_bound :
    (∀ samples : List Rat,
      (samples.foldl appendHistory []).length ≤ VOLUME_HISTORY_LIMIT ∧
      samples.foldl appendHistory [] =
        samples.drop (samples.length - VOLUME_HISTORY_LIMIT))
    ∧ (∀ (fetch : String → Option StockData) (s : BotState) (c0 : String),
      (bucketOf s.volumeHistory c0).length ≤ VOLUME_HISTORY_LIMIT →
      (bucketOf (checkAlerts fetch s).1.volumeHistory c0).length
        ≤ VOLUME_HISTORY_LIMIT) := by
  constructor
  · intro samples
    have h := foldl_appendHistory_eq samples [] (by simp)
    rw [List.nil_append] at h
    constructor
    · rw [h, List.length_drop]
      omega
    · exact h
  · intro fetch s c0 h
    exact histlen_runCycle fetch (collectCodes s) (s, []) c0 h

/-- Claim C9: dedup replace.  Upserting a PriceAlert whose
(identifier, direction) pair matches an existing alert in the user's bucket
replaces that alert's targetPrice in place — the bucket becomes the old
bucket with the first matching position overwritten, so its length is
unchanged — while an upsert with a fresh key appends a new alert. -/
theorem C9_dedup_replace (m : List (String × List PriceAlert)) (u code : String)
    (dir : Direction) (price : Rat) :
    ((∃ b ∈ bucketOf m u, b.stockCode = code ∧ b.direction = dir) →
      (bucketOf (upsertPriceAlert m u code dir price) u).length =
        (bucketOf m u).length ∧
      (bucketOf m u).findIdx (priceKeyMatches code dir) < (bucketOf m u).length ∧
      bucketOf (upsertPriceAlert m u code dir price) u =
        (bucketOf m u).set ((bucketOf m u).findIdx (priceKeyMatches code dir))
          { stockCode := code, direction := dir, targetPrice := price })
    ∧ ((¬ ∃ b ∈ bucketOf m u, b.stockCode = code ∧ b.direction = dir) →
      bucketOf (upsertPriceAlert m u code dir price) u =
        bucketOf m u ++ [{ stockCode := code, direction := dir, targetPrice := price }]) := by
  have hbucket : bucketOf (upsertPriceAlert m u code dir price) u =
      priceBucketUpsert (bucketOf m u) code dir price := by
    unfold upsertPriceAlert
    exact bucketOf_mapSet_self m u _
  constructor
  · intro hex
    have hany : (bucketOf m u).any (priceKeyMatches code dir) = true := by
      rw [List.any_eq_true]
      obtain ⟨b, hb, hkey⟩ := hex
      exact ⟨b, hb, (priceKeyMatches_iff code dir b).mpr hkey⟩
    obtain ⟨hlt, heq⟩ := setPriceTargetAtFirst_eq_set (bucketOf m u) code dir price hany
    rw [hbucket]
    unfold priceBucketUpsert
    rw [if_pos hany, heq]
    exact ⟨List.length_set _ _ _, hlt, rfl⟩
  · intro hex
    have hany : ¬ (bucketOf m u).any (priceKeyMatches code dir) = true := by
      rw [List.any_eq_true]
      intro ⟨b, hb, hkey⟩
      exact hex ⟨b, hb, (priceKeyMatches_iff code dir b).mp hkey⟩
    rw [hbucket]
    unfold priceBucketUpsert
    rw [if_neg hany]

end StockBot

namespace StockBot

/-- Claim C6: pruning invariant.  Every operation — an evaluation cycle, the
three upserts, and the two clear commands — preserves the invariant that no
user entry holds an empty collection; under that invariant key presence in a
mapping coincides with having at least one alert of that kind, and after a
clear the user's key is absent rather than mapped to an empty collection. -/
theorem C6_pruning_invariant (α : Type) :
    (∀ (fetch : String → Option StockData) (s : BotState),
      PrunedState s → PrunedState (checkAlerts fetch s).1)
    ∧ (∀ (m : List (String × List PriceAlert)) (u code : String) (dir : Direction)
        (price : Rat), Pruned m → Pruned (upsertPriceAlert m u code dir price))
    ∧ (∀ (m : List (String × List ChangeAlert)) (u code : String) (pct : Rat),
        Pruned m → Pruned (upsertChangeAlert m u code pct))
    ∧ (∀ (m : List (String × List VolumeAlert)) (u code : String) (mult : Rat),
        Pruned m → Pruned (upsertVolumeAlert m u code mult))
    ∧ (∀ (s : BotState) (u : String), PrunedState s →
        PrunedState (clearPriceAndChange s u) ∧ PrunedState (clearVolume s u))
    ∧ (∀ (m : List (String × List α)) (u : String), Pruned m →
        (keyPresent m u = true ↔ bucketOf m u ≠ []))
    ∧ (∀ (s : BotState) (u : String),
        keyPresent (clearPriceAndChange s u).userPriceAlerts u = false
        ∧ keyPresent (clearPriceAndChange s u).userChangeAlerts u = false
        ∧ keyPresent (clearVolume s u).userVolumeAlerts u = false) := by
  refine ⟨?_, ?_, ?_, ?_, ?_, ?_, ?_⟩
  · intro fetch s h
    exact pruned_runCycle fetch (collectCodes s) (s, []) h
  · intro m u code dir price h
    exact pruned_upsertPriceAlert m u code dir price h
  · intro m u code pct h
    exact pruned_upsertChangeAlert m u code pct h
  · intro m u code mult h
    exact pruned_upsertVolumeAlert m u code mult h
  · intro s u h
    exact ⟨⟨pruned_mapDelete _ _ h.1, pruned_mapDelete _ _ h.2.1, h.2.2⟩,
      ⟨h.1, h.2.1, pruned_mapDelete _ _ h.2.2⟩⟩
  · intro m u h
    exact keyPresent_iff_bucket_ne_nil m u h
  · intro s u
    exact ⟨keyPresent_mapDelete_self _ _, keyPresent_mapDelete_self _ _,
      keyPresent_mapDelete_self _ _⟩

/-- Claim C2 counterexample: under the source's `setInterval`-based
scheduling (a fixed-rate timer whose callback never awaits the previous
`checkAlerts()` promise), a constant cycle duration of 70 000 ms — longer
than the 60 000 ms poll interval — makes cycle 1 start before cycle 0
completes, so the claimed "never run concurrently, for every sequence of
cycle durations" is false. -/
theorem C2_counterexample_overlap : ¬ noOverlap (fun _ => 70000) := by
  intro h
  have h0 := h 0
  simp only [cycleEnd, cycleStart, ALERT_POLL_INTERVAL_MS] at h0
  omega

/-- Claim C2 as amended: the Scheduler invokes the Evaluator once
immediately at startup and thereafter at fixed-rate 60-second ticks; a tick
starts the next cycle regardless of whether the previous cycle has
completed, so cycles never overlap precisely when every cycle duration is at
most the poll interval — durations exceeding 60 s produce overlap. -/
theorem C2_amended_fixed_rate_scheduler :
    cycleStart 0 = 0
    ∧ (∀ k, cycleStart (k + 1) = cycleStart k + ALERT_POLL_INTERVAL_MS)
    ∧ (∀ duration : Nat → Nat,
        noOverlap duration ↔ ∀ k, duration k ≤ ALERT_POLL_INTERVAL_MS) := by
  refine ⟨rfl, ?_, ?_⟩
  · intro k
    unfold cycleStart
    ring
  · intro duration
    unfold noOverlap cycleEnd cycleStart
    constructor
    · intro h k
      have hk := h k
      have : (k + 1) * ALERT_POLL_INTERVAL_MS
          = k * ALERT_POLL_INTERVAL_MS + ALERT_POLL_INTERVAL_MS := by ring
      omega
    · intro h k
      have hk := h k
      have : (k + 1) * ALERT_POLL_INTERVAL_MS
          = k * ALERT_POLL_INTERVAL_MS + ALERT_POLL_INTERVAL_MS := by ring
      omega

end StockBot

namespace StockBot

/-! ### Concrete fixtures for the witnesses -/

/-- Snapshot for "2330": price 650, previous close 600, volume 1000. -/
def wSD2330 : StockData := { z := some 650, y := some 600, v := some 1000 }

/-- Snapshot for "2317": price 100, previous close 100, volume 250. -/
def wSD2317 : StockData := { z := some 100, y := some 100, v := some 250 }

/-- Snapshot for "2454": price 94, previous close 100 (the spec's −6% example). -/
def wSD2454 : StockData := { z := some 94, y := some 100, v := none }

/-- Snapshot whose price field does not parse (the feed's "-"). -/
def wSDDash : StockData := { z := none, y := some 50, v := some 10 }

def wAlertP : PriceAlert := { stockCode := "2330", direction := .ABOVE, targetPrice := 640 }

def wAlertBelow : PriceAlert := { stockCode := "8888", direction := .BELOW, targetPrice := 1 }

def wAlertAbove : PriceAlert := { stockCode := "8888", direction := .ABOVE, targetPrice := 1 }

def wAlertGone : PriceAlert := { stockCode := "9999", direction := .BELOW, targetPrice := 100 }

def wAlertC : ChangeAlert := { stockCode := "2454", changePercent := 5 }

def wAlertV : VolumeAlert := { stockCode := "2317", multiplier := 2 }

def wState : BotState :=
  { userPriceAlerts := [("U", [wAlertP, wAlertBelow, wAlertAbove, wAlertGone])]
    userChangeAlerts := [("U", [wAlertC])]
    userVolumeAlerts := [("U", [wAlertV])]
    volumeHistory := [("2317", [100, 100, 100])] }

/-- The fetch oracle: "9999" fails (fetch error or not-found), the rest
succeed. -/
def wFetch : String → Option StockData := fun c =>
  if c = "2330" then some wSD2330
  else if c = "2317" then some wSD2317
  else if c = "2454" then some wSD2454
  else if c = "8888" then some wSDDash
  else none

theorem wState_wf : WFState wState := by
  refine ⟨?_, ?_, ?_⟩ <;> simp [WFState, NodupKeys, wState]

theorem wFetch_dash : wFetch "8888" = some wSDDash := rfl

theorem wSD2454_pct : percentageChangeOf wSD2454 = -6 := by
  norm_num [percentageChangeOf, priceChangeOf, previousCloseOf, currentPriceOf,
    jsParseOr, wSD2454]

theorem wVol_trigger_holds :
    VOLUME_MIN_SAMPLES ≤ (bucketOf wState.volumeHistory "2317").length ∧
    0 < averageOf (bucketOf wState.volumeHistory "2317") ∧
    averageOf (bucketOf wState.volumeHistory "2317") * wAlertV.multiplier
      ≤ currentVolumeOf wSD2317 := by
  refine ⟨by decide, ?_, ?_⟩
  · norm_num [averageOf, bucketOf, mapGet, wState]
  · norm_num [averageOf, bucketOf, mapGet, wState, currentVolumeOf, jsParseOr,
      wSD2317, wAlertV]

end StockBot

namespace StockBot

/-! ### Witnesses -/

/-- Witness for C1 at a concrete registry: the ABOVE-640 alert on "2330"
(price 650) and the ×2 volume alert on "2317" (volume 250 against average
100 over 3 samples) are both removed and each dispatched exactly once. -/
theorem C1_at_most_once_firing_witness :
    ((bucketOf (checkAlerts wFetch wState).1.userPriceAlerts "U").count wAlertP = 0 ∧
      ((checkAlerts wFetch wState).2).count
        (.price "U" wAlertP (currentPriceOf wSD2330)) = 1) ∧
    ((bucketOf (checkAlerts wFetch wState).1.userVolumeAlerts "U").count wAlertV = 0 ∧
      ((checkAlerts wFetch wState).2).count
        (.volume "U" wAlertV (currentVolumeOf wSD2317)) = 1) :=
  ⟨(C1_at_most_once_firing wFetch wState wState_wf).1 "U" wAlertP wSD2330 rfl
      (by decide) (by decide),
    (C1_at_most_once_firing wFetch wState wState_wf).2.2 "U" wAlertV wSD2317 rfl
      (by rw [volumeTrigger_iff]; exact wVol_trigger_holds) (by decide)⟩

/-- Witness for C3: the ×2 volume alert on "2317" fires against prior samples
[100, 100, 100] and volume 250, and the window has 250 appended. -/
theorem C3_volume_trigger_witness :
    ((bucketOf (checkAlerts wFetch wState).1.userVolumeAlerts "U").count wAlertV = 0 ∧
      ((checkAlerts wFetch wState).2).count
        (.volume "U" wAlertV (currentVolumeOf wSD2317)) = 1) ∧
    bucketOf (checkAlerts wFetch wState).1.volumeHistory "2317" =
      appendHistory (bucketOf wState.volumeHistory "2317") (currentVolumeOf wSD2317) :=
  ⟨(C3_volume_trigger wFetch wState "U" wAlertV wSD2317 wState_wf rfl
      (by decide)).1 wVol_trigger_holds,
    (C3_volume_trigger wFetch wState "U" wAlertV wSD2317 wState_wf rfl
      (by decide)).2.2.2⟩

/-- Witness for C5: "9999" fails to fetch, so the BELOW-100 alert on it keeps
its multiplicity and its history stays untouched, while the rest of the cycle
still runs ("2330"'s alert fires once). -/
theorem C5_fail_soft_fetch_witness :
    ((bucketOf (checkAlerts wFetch wState).1.userPriceAlerts "U").count wAlertGone =
      (bucketOf wState.userPriceAlerts "U").count wAlertGone) ∧
    bucketOf (checkAlerts wFetch wState).1.volumeHistory "9999" =
      bucketOf wState.volumeHistory "9999" ∧
    ((bucketOf (checkAlerts wFetch wState).1.userPriceAlerts "U").count wAlertP = 0 ∧
      ((checkAlerts wFetch wState).2).count
        (.price "U" wAlertP (currentPriceOf wSD2330)) = 1) :=
  ⟨(C5_fail_soft_fetch wFetch wState "9999" wState_wf rfl).1 "U" wAlertGone rfl,
    (C5_fail_soft_fetch wFetch wState "9999" wState_wf rfl).2.2.2.1,
    (C5_fail_soft_fetch wFetch wState "9999" wState_wf rfl).2.2.2.2.2 "U" wAlertP wSD2330
      (by decide) rfl (by decide) (by decide)⟩

/-- Witness for C7: the ABOVE-1 alert on "8888" cannot trigger on a price
parsed as 0, and keeps its multiplicity through the cycle. -/
theorem C7_non_firing_retention_witness :
    (bucketOf (checkAlerts wFetch wState).1.userPriceAlerts "U").count wAlertAbove =
      (bucketOf wState.userPriceAlerts "U").count wAlertAbove :=
  (C7_non_firing_retention wFetch wState wState_wf).1 "U" wAlertAbove
    (by
      intro sd h
      have h3 : some wSDDash = some sd := h
      injection h3 with h2
      rw [← h2]
      decide)

/-- Witness for C8: previous close 100 and current price 94 give −6%, and
the threshold-5 change alert on "2454" fires exactly once. -/
theorem C8_change_trigger_witness :
    percentageChangeOf wSD2454 = -6 ∧
    ((bucketOf (checkAlerts wFetch wState).1.userChangeAlerts "U").count wAlertC = 0 ∧
      ((checkAlerts wFetch wState).2).count
        (.change "U" wAlertC (percentageChangeOf wSD2454)) = 1) :=
  ⟨wSD2454_pct,
    (C8_change_trigger wFetch wState "U" wAlertC wSD2454 wState_wf rfl (by decide)).1
      (by
        rw [wSD2454_pct, abs_of_nonpos (by norm_num)]
        norm_num [wAlertC])⟩

/-- Witness for C10: "8888"'s price field does not parse, so currentPrice is
0, the BELOW-1 alert fires once, and the ABOVE-1 alert survives. -/
theorem C10_unparsed_price_below_fires_witness :
    currentPriceOf wSDDash = 0 ∧
    ((bucketOf (checkAlerts wFetch wState).1.userPriceAlerts "U").count wAlertBelow = 0 ∧
      ((checkAlerts wFetch wState).2).count
        (.price "U" wAlertBelow (currentPriceOf wSDDash)) = 1) ∧
    (bucketOf (checkAlerts wFetch wState).1.userPriceAlerts "U").count wAlertAbove =
      (bucketOf wState.userPriceAlerts "U").count wAlertAbove :=
  ⟨(C10_unparsed_price_below_fires wFetch wState "U" wSDDash wState_wf (Or.inl rfl)).1,
    (C10_unparsed_price_below_fires wFetch wState "U" wSDDash wState_wf (Or.inl rfl)).2.1
      wAlertBelow rfl (by norm_num [wAlertBelow]) rfl (by decide),
    (C10_unparsed_price_below_fires wFetch wState "U" wSDDash wState_wf (Or.inl rfl)).2.2
      wAlertAbove rfl (by norm_num [wAlertAbove]) rfl⟩

end StockBot
